import Mathlib

/-!
Shallow embedding of the overlay resolution and batched-mutation engine of
`src/promote.py` (with the refactored validators of `src/validate.py`),
together with theorems settling the specification claims.

Modelling conventions:
* A JSON object field is `Option _`: `none` means the key is absent.
* Python dicts keyed by strings are insertion-ordered association lists.
* Python truthiness of a string is non-emptiness.
* `sys.exit(1)` / uncaught exceptions are `Except` errors; an uncaught
  `KeyError` on a dict access is `PErr.keyError`, and the `KeyError` raised
  by `images[image["name"]]` during `fromOverlay` resolution is modelled as
  `PErr.sourceEntryNotFound` (the source-entry-not-found failure).
* The filesystem is the map from overlay name to parsed `kustomization.yaml`
  content plus the set of existing overlay directories; external commands
  (`kustomize edit set image`, `kustomize cfg fmt`) are black-box
  collaborators recorded in a trace of invoked mutation commands and assumed
  to succeed.
-/

namespace Spec2Proof

/-- An image object (change request, overlay declaration, or manifest entry).
Fields mirror the JSON keys used by `promote.py`; `none` = key absent. -/
structure Image where
  name : Option String := none
  newName : Option String := none
  newTag : Option String := none
  fromOverlay : Option String := none
  overlays : Option (List String) := none
deriving Repr, DecidableEq

/-- A helm chart object (change request or `helmCharts` declaration).
`extra` carries any further fields of a declaration (e.g. `repo`,
`valuesFile`) as an opaque key/value list, so frame conditions on
"all other fields" are expressible. -/
structure Chart where
  name : Option String := none
  version : Option String := none
  releaseName : Option String := none
  fromOverlay : Option String := none
  overlays : Option (List String) := none
  extra : List (String × String) := []
deriving Repr, DecidableEq

/-- Parsed `kustomization.yaml` content of one overlay. -/
structure Kustomization where
  images : Option (List Image) := none
  helmCharts : Option (List Chart) := none
deriving Repr, DecidableEq

/-- The deployment directory: which overlay directories exist, and each
overlay's `kustomization.yaml` content (absent entry = missing file). -/
structure Fs where
  dirs : List String := []
  kust : List (String × Kustomization) := []
deriving Repr, DecidableEq

/-- Association-list lookup (Python `d[k]` / `k in d`). -/
def alookup {α : Type} : List (String × α) → String → Option α
  | [], _ => none
  | (k, v) :: rest, key => if k = key then some v else alookup rest key

/-- Python dict assignment `d[k] = v`: overwrite in place, else append. -/
def dict_set {α : Type} : List (String × α) → String → α → List (String × α)
  | [], k, v => [(k, v)]
  | (k', v') :: rest, k, v =>
    if k' = k then (k, v) :: rest else (k', v') :: dict_set rest k v

def Fs.read (fs : Fs) (o : String) : Option Kustomization := alookup fs.kust o

def Fs.write (fs : Fs) (o : String) (k : Kustomization) : Fs :=
  { fs with kust := dict_set fs.kust o k }

/-- `find_duplicates` (identical in `promote.py` and `validate.py`), applied
to the extracted field values: the set of values seen more than once. -/
def find_duplicates_go : List String → List String → List String → List String
  | [], _, dups => dups
  | v :: rest, seen, dups =>
    if v ∈ seen then
      if v ∈ dups then find_duplicates_go rest seen dups
      else find_duplicates_go rest seen (dups ++ [v])
    else find_duplicates_go rest (v :: seen) dups

def find_duplicates (vals : List String) : List String :=
  find_duplicates_go vals [] []

/-- A structural/uniqueness violation of an image change request, mirroring
the `logger.fatal` / error-list messages of the two validators. -/
inductive Violation where
  | dupNames (names : List String)
  | dupNewNames (names : List String)
  | missingName (img : Image)
  | conflictNewName (img : Image)
  | conflictNewTag (img : Image)
  | missingNewNameTag (img : Image)
  | missingOverlays (img : Image)
deriving Repr, DecidableEq

/-- A violation of a chart change request. -/
inductive CViolation where
  | dupNames (names : List String)
  | missingName (c : Chart)
  | conflictVersion (c : Chart)
  | missingVersion (c : Chart)
  | missingOverlays (c : Chart)
deriving Repr, DecidableEq

/-- Outcome of `promote.py`'s validators: `exited` models `sys.exit(1)`,
`returned` the boolean result; both record the violations logged. -/
inductive Outcome (v : Type) where
  | exited (reported : List v)
  | returned (ok : Bool) (reported : List v)
deriving Repr, DecidableEq

/-- The per-image checks of the loop in `promote.py::validate_images`
(first failing check wins; `originallyDict` is `isinstance(images, dict)`). -/
def promote_check_image (originallyDict : Bool) (img : Image) : Option Violation :=
  if img.name = none then some (.missingName img)
  else if img.fromOverlay ≠ none then
    if img.newName ≠ none then some (.conflictNewName img)
    else if img.newTag ≠ none then some (.conflictNewTag img)
    else if originallyDict = false ∧ img.overlays = none then
      some (.missingOverlays img)
    else none
  else if img.newTag = none ∧ img.newName = none then
    some (.missingNewNameTag img)
  else if originallyDict = false ∧ img.overlays = none then
    some (.missingOverlays img)
  else none

/-- The `for image in images` loop of `promote.py::validate_images`:
returns `False` at the first violation, reporting only that one. -/
def promote_images_loop (originallyDict : Bool) : List Image → Outcome Violation
  | [] => .returned true []
  | img :: rest =>
    match promote_check_image originallyDict img with
    | some v => .returned false [v]
    | none => promote_images_loop originallyDict rest

/-- `promote.py::validate_images`: duplicate name / newName checks each call
`sys.exit(1)` immediately, then the per-image loop. -/
def validate_images (originallyDict : Bool) (images : List Image) : Outcome Violation :=
  let dupN := find_duplicates (images.filterMap (·.name))
  if dupN ≠ [] then .exited [.dupNames dupN]
  else
    let dupNN := find_duplicates (images.filterMap (·.newName))
    if dupNN ≠ [] then .exited [.dupNewNames dupNN]
    else promote_images_loop originallyDict images

/-- The per-chart checks of the loop in `promote.py::validate_charts`. -/
def promote_check_chart (originallyDict : Bool) (c : Chart) : Option CViolation :=
  if c.name = none then some (.missingName c)
  else if c.fromOverlay ≠ none then
    if c.version ≠ none then some (.conflictVersion c)
    else if originallyDict = false ∧ c.overlays = none then
      some (.missingOverlays c)
    else none
  else if c.version = none then some (.missingVersion c)
  else if originallyDict = false ∧ c.overlays = none then
    some (.missingOverlays c)
  else none

def promote_charts_loop (originallyDict : Bool) : List Chart → Outcome CViolation
  | [] => .returned true []
  | c :: rest =>
    match promote_check_chart originallyDict c with
    | some v => .returned false [v]
    | none => promote_charts_loop originallyDict rest

/-- `promote.py::validate_charts`. -/
def validate_charts (originallyDict : Bool) (charts : List Chart) : Outcome CViolation :=
  let dupN := find_duplicates (charts.filterMap (·.name))
  if dupN ≠ [] then .exited [.dupNames dupN]
  else promote_charts_loop originallyDict charts

namespace Validate

/-- The per-image checks of `validate.py::validate_image_fields`. Note the
`if`/`elif` chain differs from `promote.py`: up to three errors can be
collected for one image, and every image is examined. -/
def image_field_violations (originallyDict : Bool) (img : Image) : List Violation :=
  (if img.name = none then [Violation.missingName img] else []) ++
  (if img.fromOverlay ≠ none ∧ img.newName ≠ none then [Violation.conflictNewName img]
   else if img.fromOverlay ≠ none ∧ img.newTag ≠ none then [Violation.conflictNewTag img]
   else if img.newTag = none ∧ img.newName = none then [Violation.missingNewNameTag img]
   else []) ++
  (if originallyDict = false ∧ img.overlays = none then [Violation.missingOverlays img] else [])

/-- `validate.py::validate_image_fields`: the error-accumulating loop. -/
def validate_image_fields (originallyDict : Bool) : List Image → List Violation
  | [] => []
  | img :: rest =>
    image_field_violations originallyDict img ++ validate_image_fields originallyDict rest

/-- `validate.py::validate_images`: collects all duplicate and field errors
into one list, logs them all, and returns whether the list is empty. -/
def validate_images (originallyDict : Bool) (images : List Image) : Bool × List Violation :=
  let errs :=
    (let d := find_duplicates (images.filterMap (·.name))
     if d ≠ [] then [Violation.dupNames d] else []) ++
    (let d := find_duplicates (images.filterMap (·.newName))
     if d ≠ [] then [Violation.dupNewNames d] else []) ++
    (if images ≠ [] then validate_image_fields originallyDict images else [])
  (errs.isEmpty, errs)

end Validate

/-- Fatal failures: `sys.exit(1)` calls and uncaught exceptions of
`promote.py`, by site. -/
inductive PErr where
  | usage
  | validationExit
  | keyError (key : String)
  | valueError (img : Image)
  | fileMissing (overlay : String)
  | noImagesSection (overlay : String)
  | noChartsSection (overlay : String)
  | entryMissingName (overlay : String)
  | invalidOverlayEntries (overlay : String)
  | sourceEntryNotFound (overlay : String) (name : String)
  | dirMissing (overlay : String)
  | chartNotFound (overlay : String) (name : String)
deriving Repr, DecidableEq

/-- The name-keyed map built by `read_images_from_overlay`: dict insertion
with overwrite (last declaration with a name wins), fatal if a listed image
has no `name`. -/
def build_image_map (overlay : String) :
    List (String × Image) → List Image → Except PErr (List (String × Image))
  | acc, [] => .ok acc
  | acc, img :: rest =>
    match img.name with
    | none => .error (.entryMissingName overlay)
    | some n => build_image_map overlay (dict_set acc n img) rest

/-- `promote.py::read_images_from_overlay`: load the overlay's
`kustomization.yaml`, require an `images` section, build the name-keyed map,
and validate it (as a dict) with `promote.py::validate_images`; any
validator exit or `False` return is fatal. -/
def read_images_from_overlay (overlay : String) (fs : Fs) :
    Except PErr (List (String × Image)) :=
  match fs.read overlay with
  | none => .error (.fileMissing overlay)
  | some k =>
    match k.images with
    | none => .error (.noImagesSection overlay)
    | some imgs =>
      match build_image_map overlay [] imgs with
      | .error e => .error e
      | .ok st =>
        match validate_images true (st.map (·.2)) with
        | .returned true _ => .ok st
        | _ => .error (.invalidOverlayEntries overlay)

def build_chart_map (overlay : String) :
    List (String × Chart) → List Chart → Except PErr (List (String × Chart))
  | acc, [] => .ok acc
  | acc, c :: rest =>
    match c.name with
    | none => .error (.entryMissingName overlay)
    | some n => build_chart_map overlay (dict_set acc n c) rest

/-- `promote.py::read_charts_from_overlay`. -/
def read_charts_from_overlay (overlay : String) (fs : Fs) :
    Except PErr (List (String × Chart)) :=
  match fs.read overlay with
  | none => .error (.fileMissing overlay)
  | some k =>
    match k.helmCharts with
    | none => .error (.noChartsSection overlay)
    | some cs =>
      match build_chart_map overlay [] cs with
      | .error e => .error e
      | .ok st =>
        match validate_charts true (st.map (·.2)) with
        | .returned true _ => .ok st
        | _ => .error (.invalidOverlayEntries overlay)

/-- Python `if k not in d: d[k] = []`. -/
def bucket_ensure {α : Type} (m : List (String × List α)) (k : String) :
    List (String × List α) :=
  if (alookup m k).isSome then m else m ++ [(k, [])]

/-- Python `d[k].append(v)` (creating the key if absent, which after
`bucket_ensure` never happens). -/
def bucket_append {α : Type} : List (String × List α) → String → α → List (String × List α)
  | [], k, v => [(k, [v])]
  | (k', vs) :: rest, k, v =>
    if k' = k then (k', vs ++ [v]) :: rest else (k', vs) :: bucket_append rest k v

/-- The `fromOverlay` expansion done per target overlay inside
`get_images_from_overlays`: read the source overlay and look the entry up by
`name` (`images[image["name"]]`, whose `KeyError` on a missing entry is
`sourceEntryNotFound`). -/
def resolve_image (fs : Fs) (img : Image) : Except PErr Image :=
  match img.fromOverlay with
  | none => .ok img
  | some src =>
    match read_images_from_overlay src fs with
    | .error e => .error e
    | .ok st =>
      match img.name with
      | none => .error (.keyError "name")
      | some n =>
        match alookup st n with
        | none => .error (.sourceEntryNotFound src n)
        | some v => .ok v

/-- The inner `for overlay in image["overlays"]` loop of
`get_images_from_overlays`. -/
def gifo_overlays (fs : Fs) (img : Image) :
    List String → List (String × List Image) → Except PErr (List (String × List Image))
  | [], acc => .ok acc
  | o :: rest, acc =>
    let acc₁ := bucket_ensure acc o
    match resolve_image fs img with
    | .error e => .error e
    | .ok v => gifo_overlays fs img rest (bucket_append acc₁ o v)

def gifo_go (fs : Fs) :
    List Image → List (String × List Image) → Except PErr (List (String × List Image))
  | [], acc => .ok acc
  | img :: rest, acc =>
    match img.overlays with
    | none => .error (.keyError "overlays")
    | some os =>
      match gifo_overlays fs img os acc with
      | .error e => .error e
      | .ok acc' => gifo_go fs rest acc'

/-- `promote.py::get_images_from_overlays`: bucket every request under each
of its target overlays, expanding `fromOverlay` references. -/
def get_images_from_overlays (images_to_update : List Image) (fs : Fs) :
    Except PErr (List (String × List Image)) :=
  gifo_go fs images_to_update []

/-- The `for overlayChart in charts.values()` loop: append every source
declaration whose name equals the request's name (silently appending
nothing when none matches). -/
def gcfo_match (o : String) (chart : Chart) :
    List Chart → List (String × List Chart) → Except PErr (List (String × List Chart))
  | [], acc => .ok acc
  | c :: cs, acc =>
    match chart.name with
    | none => .error (.keyError "name")
    | some n =>
      if c.name = some n then gcfo_match o chart cs (bucket_append acc o c)
      else gcfo_match o chart cs acc

def gcfo_overlays (fs : Fs) (chart : Chart) :
    List String → List (String × List Chart) → Except PErr (List (String × List Chart))
  | [], acc => .ok acc
  | o :: rest, acc =>
    let acc₁ := bucket_ensure acc o
    match chart.fromOverlay with
    | some src =>
      match read_charts_from_overlay src fs with
      | .error e => .error e
      | .ok st =>
        match gcfo_match o chart (st.map (·.2)) acc₁ with
        | .error e => .error e
        | .ok acc₂ => gcfo_overlays fs chart rest acc₂
    | none => gcfo_overlays fs chart rest (bucket_append acc₁ o chart)

def gcfo_go (fs : Fs) :
    List Chart → List (String × List Chart) → Except PErr (List (String × List Chart))
  | [], acc => .ok acc
  | chart :: rest, acc =>
    match chart.overlays with
    | none => .error (.keyError "overlays")
    | some os =>
      match gcfo_overlays fs chart os acc with
      | .error e => .error e
      | .ok acc' => gcfo_go fs rest acc'

/-- `promote.py::get_charts_from_overlays`. -/
def get_charts_from_overlays (charts_to_update : List Chart) (fs : Fs) :
    Except PErr (List (String × List Chart)) :=
  gcfo_go fs charts_to_update []

/-- One overlay's bucket of the promotion manifest:
`{images?: [...], charts?: [...]}` (key absent = `none`). -/
structure OverlayManifest where
  images : Option (List Image) := none
  charts : Option (List Chart) := none
deriving Repr, DecidableEq

/-- The promotion manifest: overlay name → per-overlay bucket. -/
abbrev Manifest := List (String × OverlayManifest)

/-- A recorded invocation of the external mutation/formatting command. -/
abbrev Cmd := List String

/-- The empty per-overlay manifest bucket (`{}`). -/
def om_empty : OverlayManifest := { images := none, charts := none }

/-- In-place update of the value stored under key `o` (Python mutates
`promotion_manifest[overlay]` through the reference). -/
def manifest_map_at (m : Manifest) (o : String) (f : OverlayManifest → OverlayManifest) :
    Manifest :=
  m.map fun kv => if kv.1 = o then (kv.1, f kv.2) else kv

/-- `if overlay not in promotion_manifest: promotion_manifest[overlay] = {}`. -/
def manifest_ensure (m : Manifest) (o : String) : Manifest :=
  if (alookup m o).isSome then m else m ++ [(o, om_empty)]

/-- `if "images" not in promotion_manifest[overlay]: ... = []`. -/
def manifest_ensure_images (m : Manifest) (o : String) : Manifest :=
  manifest_map_at m o fun om => { om with images := some (om.images.getD []) }

/-- `promotion_manifest[overlay]["images"].append(e)`. -/
def manifest_append_image (m : Manifest) (o : String) (e : Image) : Manifest :=
  manifest_map_at m o fun om => { om with images := some (om.images.getD [] ++ [e]) }

def manifest_ensure_charts (m : Manifest) (o : String) : Manifest :=
  manifest_map_at m o fun om => { om with charts := some (om.charts.getD []) }

def manifest_append_chart (m : Manifest) (o : String) (e : Chart) : Manifest :=
  manifest_map_at m o fun om => { om with charts := some (om.charts.getD [] ++ [e]) }

/-- Python truthiness of `image.get("newTag")`: a present non-empty string. -/
def truthy : Option String → Bool
  | none => false
  | some s => !s.isEmpty

/-- One iteration of the loop of `promote.py::generate_kustomize_args`:
`name = image["name"]` (`KeyError` if absent), `new_name` falls back to
`name` when the `newName` key is absent, the manifest keys are created, and
then the truthiness branches pick the argument form or raise `ValueError`. -/
def gen_image_step (overlay : String) (m : Manifest) (img : Image) :
    Except PErr (String × Manifest) :=
  match img.name with
  | none => .error (.keyError "name")
  | some name =>
    let new_name := img.newName.getD name
    let new_tag := img.newTag
    let m₁ := manifest_ensure_images (manifest_ensure m overlay) overlay
    if !new_name.isEmpty && truthy new_tag then
      .ok (name ++ "=" ++ new_name ++ ":" ++ new_tag.getD "",
        manifest_append_image m₁ overlay
          { name := some name, newName := some new_name, newTag := new_tag })
    else if !new_name.isEmpty then
      .ok (name ++ "=" ++ new_name,
        manifest_append_image m₁ overlay
          { name := some name, newName := some new_name })
    else .error (.valueError img)

def gen_go (overlay : String) :
    List Image → List String → Manifest → Except PErr (List String × Manifest)
  | [], args, m => .ok (args, m)
  | img :: rest, args, m =>
    match gen_image_step overlay m img with
    | .error e => .error e
    | .ok (a, m') => gen_go overlay rest (args ++ [a]) m'

/-- `promote.py::generate_kustomize_args`. -/
def generate_kustomize_args (overlay : String) (images : List Image) (m : Manifest) :
    Except PErr (List String × Manifest) :=
  gen_go overlay images [] m

/-- `promote.py::update_kustomize_images`: require the overlay directory,
generate the batched arguments, and run `kustomize edit set image` once when
there is at least one argument (the external command is assumed to
succeed; its file effects are outside the model). -/
def update_kustomize_images (env : String) (fs : Fs) (images : List Image) (m : Manifest) :
    Except PErr (Manifest × List Cmd) :=
  if env ∈ fs.dirs then
    match generate_kustomize_args env images m with
    | .error e => .error e
    | .ok (args, m') =>
      if args.isEmpty then .ok (m', [])
      else .ok (m', [["kustomize", "edit", "set", "image"] ++ args])
  else .error (.dirMissing env)

/-- The inner `for i, helm_chart in enumerate(kustomization["helmCharts"])`
scan of `update_kustomize_charts` for one requested chart: every matching
declaration gets `version` overwritten (`chart["version"]`, `KeyError` if
absent) and the request itself is appended verbatim to the manifest's
`charts` list; returns the updated declarations, manifest and `found`. -/
def apply_chart_to_decls (overlay : String) (chart : Chart) :
    List Chart → Manifest → Bool → Except PErr (List Chart × Manifest × Bool)
  | [], m, found => .ok ([], m, found)
  | d :: ds, m, found =>
    match d.name with
    | none => .error (.keyError "name")
    | some dn =>
      match chart.name with
      | none => .error (.keyError "name")
      | some cn =>
        if dn = cn then
          match chart.version with
          | none => .error (.keyError "version")
          | some v =>
            let d' := { d with version := some v }
            let m' := manifest_append_chart
              (manifest_ensure_charts (manifest_ensure m overlay) overlay) overlay chart
            match apply_chart_to_decls overlay chart ds m' true with
            | .error e => .error e
            | .ok (ds', m'', f) => .ok (d' :: ds', m'', f)
        else
          match apply_chart_to_decls overlay chart ds m found with
          | .error e => .error e
          | .ok (ds', m'', f) => .ok (d :: ds', m'', f)

/-- The outer `for chart in charts` loop of `update_kustomize_charts`:
`found == False` after the scan is fatal (`chart['name']` is read for the
message, so a missing name is a `KeyError` there). -/
def charts_loop (overlay : String) :
    List Chart → List Chart → Manifest → Except PErr (List Chart × Manifest)
  | [], decls, m => .ok (decls, m)
  | c :: cs, decls, m =>
    match apply_chart_to_decls overlay c decls m false with
    | .error e => .error e
    | .ok (decls', m', found) =>
      if found then charts_loop overlay cs decls' m'
      else
        match c.name with
        | none => .error (.keyError "name")
        | some n => .error (.chartNotFound overlay n)

/-- `promote.py::update_kustomize_charts`: require the overlay directory and
its `kustomization.yaml` with a `helmCharts` key, apply every requested
chart in memory, and only after all of them succeed write the file back and
run `kustomize cfg fmt`. The first component is the filesystem after the
call: unchanged on every error path, since the write comes last. -/
def update_kustomize_charts (overlay : String) (charts : List Chart) (fs : Fs)
    (m : Manifest) : Fs × Except PErr (Manifest × List Cmd) :=
  if overlay ∈ fs.dirs then
    match fs.read overlay with
    | none => (fs, .error (.fileMissing overlay))
    | some k =>
      match k.helmCharts with
      | none => (fs, .error (.noChartsSection overlay))
      | some decls =>
        match charts_loop overlay charts decls m with
        | .error e => (fs, .error e)
        | .ok (decls', m') =>
          (fs.write overlay { k with helmCharts := some decls' },
           (.ok (m', [["kustomize", "cfg", "fmt", "kustomization.yaml"]])))
  else (fs, .error (.dirMissing overlay))

/-- `promote.py::validate_promotion_lists`: usage error when both lists are
empty; then the two validators run — their boolean results are discarded by
the caller, so only a duplicate-induced `sys.exit(1)` stops the run. -/
def validate_promotion_lists (images : List Image) (charts : List Chart) :
    Except PErr Unit :=
  if images.isEmpty && charts.isEmpty then .error .usage
  else
    match validate_images false images with
    | .exited _ => .error .validationExit
    | .returned _ _ =>
      match validate_charts false charts with
      | .exited _ => .error .validationExit
      | .returned _ _ => .ok ()

/-- The `for env, images in overlays_to_images.items()` loop of `main`:
update each overlay, then read `promotion_manifest[env]["images"]` (for the
success log), whose `KeyError` is fatal. Returns the commands run so far
alongside the outcome. -/
def images_phase (fs : Fs) :
    List (String × List Image) → Manifest → List Cmd → List Cmd × Except PErr Manifest
  | [], m, tr => (tr, .ok m)
  | (env, imgs) :: rest, m, tr =>
    match update_kustomize_images env fs imgs m with
    | .error e => (tr, .error e)
    | .ok (m', cmds) =>
      match alookup m' env with
      | none => (tr ++ cmds, .error (.keyError env))
      | some om =>
        match om.images with
        | none => (tr ++ cmds, .error (.keyError "images"))
        | some _ => images_phase fs rest m' (tr ++ cmds)

/-- The `for env, charts in overlays_to_charts.items()` loop of `main`,
threading the filesystem through the chart writes. -/
def charts_phase :
    List (String × List Chart) → Fs → Manifest → List Cmd →
    Fs × List Cmd × Except PErr Manifest
  | [], fs, m, tr => (fs, tr, .ok m)
  | (env, cs) :: rest, fs, m, tr =>
    match update_kustomize_charts env cs fs m with
    | (fs', .error e) => (fs', tr, .error e)
    | (fs', .ok (m', cmds)) =>
      match alookup m' env with
      | none => (fs', tr ++ cmds, .error (.keyError env))
      | some om =>
        match om.charts with
        | none => (fs', tr ++ cmds, .error (.keyError "charts"))
        | some _ => charts_phase rest fs' m' (tr ++ cmds)

/-- `promote.py::main`, from the already-parsed change-sets: validate, then
resolve both change-sets, then the two mutation phases, emitting the final
promotion manifest. The result carries the final filesystem and the trace of
mutation commands invoked, so pre-mutation failures are recognizable as an
unchanged filesystem with an empty trace. -/
def main_run (images_to_update : List Image) (charts_to_update : List Chart) (fs : Fs) :
    Fs × List Cmd × Except PErr Manifest :=
  match validate_promotion_lists images_to_update charts_to_update with
  | .error e => (fs, [], .error e)
  | .ok _ =>
    match get_images_from_overlays images_to_update fs with
    | .error e => (fs, [], .error e)
    | .ok ibuckets =>
      match get_charts_from_overlays charts_to_update fs with
      | .error e => (fs, [], .error e)
      | .ok cbuckets =>
        match images_phase fs ibuckets [] [] with
        | (tr, .error e) => (fs, tr, .error e)
        | (tr, .ok m) => charts_phase cbuckets fs m tr

/-! ### Association-list and bucket lemmas -/

theorem alookup_append_of_none {α : Type} {m : List (String × α)} {k : String}
    (h : alookup m k = none) (m' : List (String × α)) :
    alookup (m ++ m') k = alookup m' k := by
  induction m with
  | nil => rfl
  | cons kv rest ih =>
    obtain ⟨k', v'⟩ := kv
    simp only [alookup, List.cons_append] at h ⊢
    by_cases hk : k' = k
    · simp [hk] at h
    · simp only [if_neg hk] at h ⊢
      exact ih h

theorem alookup_append_single_ne {α : Type} {m : List (String × α)} {k o : String}
    (x : α) (h : o ≠ k) : alookup (m ++ [(k, x)]) o = alookup m o := by
  induction m with
  | nil => simp [alookup, Ne.symm h]
  | cons kv rest ih =>
    obtain ⟨k', v'⟩ := kv
    simp only [alookup, List.cons_append]
    by_cases hk : k' = o
    · simp [hk]
    · simp only [if_neg hk]
      exact ih

theorem alookup_bucket_ensure_self {α : Type} (m : List (String × List α)) (k : String) :
    alookup (bucket_ensure m k) k = some ((alookup m k).getD []) := by
  unfold bucket_ensure
  cases h : alookup m k with
  | some v => simp [h]
  | none =>
    simp only [h, Option.isSome_none, Bool.false_eq_true, if_false, Option.getD_none]
    rw [alookup_append_of_none h]
    simp [alookup]

theorem alookup_bucket_ensure_ne {α : Type} {m : List (String × List α)} {k o : String}
    (h : o ≠ k) : alookup (bucket_ensure m k) o = alookup m o := by
  unfold bucket_ensure
  cases hk : (alookup m k).isSome with
  | true => simp
  | false => rw [if_neg Bool.false_ne_true]; exact alookup_append_single_ne _ h

theorem alookup_bucket_append_self {α : Type} (m : List (String × List α)) (k : String)
    (v : α) : alookup (bucket_append m k v) k = some ((alookup m k).getD [] ++ [v]) := by
  induction m with
  | nil => simp [bucket_append, alookup]
  | cons kv rest ih =>
    obtain ⟨k', vs⟩ := kv
    simp only [bucket_append, alookup]
    by_cases hk : k' = k
    · subst hk
      simp [alookup]
    · simp only [if_neg hk, alookup, if_neg hk]
      exact ih

theorem alookup_bucket_append_ne {α : Type} {m : List (String × List α)} {k o : String}
    (v : α) (h : o ≠ k) : alookup (bucket_append m k v) o = alookup m o := by
  induction m with
  | nil => simp [bucket_append, alookup, Ne.symm h]
  | cons kv rest ih =>
    obtain ⟨k', vs⟩ := kv
    simp only [bucket_append, alookup]
    by_cases hk : k' = k
    · subst hk
      simp only [if_pos rfl, alookup, if_neg (Ne.symm h)]
    · simp only [if_neg hk, alookup]
      by_cases hk' : k' = o
      · simp [hk']
      · simp only [if_neg hk']
        exact ih

/-! ### Manifest lemmas -/

theorem manifest_map_at_cons (k' : String) (v' : OverlayManifest) (rest : Manifest)
    (o : String) (f : OverlayManifest → OverlayManifest) :
    manifest_map_at ((k', v') :: rest) o f =
      (if k' = o then (k', f v') else (k', v')) :: manifest_map_at rest o f := rfl

theorem alookup_manifest_map_at_self (m : Manifest) (o : String)
    (f : OverlayManifest → OverlayManifest) :
    alookup (manifest_map_at m o f) o = (alookup m o).map f := by
  induction m with
  | nil => rfl
  | cons kv rest ih =>
    obtain ⟨k', v'⟩ := kv
    rw [manifest_map_at_cons]
    by_cases hk : k' = o
    · subst hk
      rw [if_pos rfl]
      simp [alookup]
    · rw [if_neg hk]
      simp only [alookup, if_neg hk]
      exact ih

theorem alookup_manifest_map_at_ne {m : Manifest} {o o' : String}
    (f : OverlayManifest → OverlayManifest) (h : o' ≠ o) :
    alookup (manifest_map_at m o f) o' = alookup m o' := by
  induction m with
  | nil => rfl
  | cons kv rest ih =>
    obtain ⟨k', v'⟩ := kv
    rw [manifest_map_at_cons]
    by_cases hk : k' = o
    · subst hk
      rw [if_pos rfl]
      simp only [alookup, if_neg (fun hh : k' = o' => h hh.symm)]
      exact ih
    · rw [if_neg hk]
      simp only [alookup]
      by_cases hk' : k' = o'
      · simp [hk']
      · simp only [if_neg hk']
        exact ih

theorem alookup_manifest_ensure_self (m : Manifest) (o : String) :
    alookup (manifest_ensure m o) o = some ((alookup m o).getD om_empty) := by
  unfold manifest_ensure
  cases h : alookup m o with
  | some v => simp [h]
  | none =>
    simp only [h, Option.isSome_none, Bool.false_eq_true, if_false, Option.getD_none]
    rw [alookup_append_of_none h]
    simp [alookup]

theorem alookup_manifest_ensure_ne {m : Manifest} {o o' : String} (h : o' ≠ o) :
    alookup (manifest_ensure m o) o' = alookup m o' := by
  unfold manifest_ensure
  cases hk : (alookup m o).isSome with
  | true => simp
  | false => rw [if_neg Bool.false_ne_true]; exact alookup_append_single_ne _ h

/-! ### Characterizing `generate_kustomize_args` -/

/-- The images list recorded in the manifest for overlay `o` (empty when the
overlay or its `images` key is absent). -/
def images_at (m : Manifest) (o : String) : List Image :=
  (((alookup m o).getD om_empty).images).getD []

/-- The charts list recorded in the manifest for overlay `o`. -/
def charts_at (m : Manifest) (o : String) : List Chart :=
  (((alookup m o).getD om_empty).charts).getD []

/-- The `charts` field value at `o` (to distinguish an absent key from an
empty list). -/
def charts_field (m : Manifest) (o : String) : Option (List Chart) :=
  ((alookup m o).getD om_empty).charts

def images_field (m : Manifest) (o : String) : Option (List Image) :=
  ((alookup m o).getD om_empty).images

/-- The batched argument a successful `generate_kustomize_args` iteration
produces for an image. -/
def arg_of (img : Image) : String :=
  match img.name with
  | none => ""
  | some name =>
    let nn := img.newName.getD name
    if truthy img.newTag then name ++ "=" ++ nn ++ ":" ++ img.newTag.getD ""
    else name ++ "=" ++ nn

/-- The manifest entry a successful `generate_kustomize_args` iteration
appends for an image. -/
def entry_of (img : Image) : Image :=
  match img.name with
  | none => { name := none }
  | some name =>
    let nn := img.newName.getD name
    if truthy img.newTag then { name := some name, newName := some nn, newTag := img.newTag }
    else { name := some name, newName := some nn }

/-- The composite of the three manifest mutations one successful image
iteration performs. -/
def manifest_add_image (m : Manifest) (o : String) (e : Image) : Manifest :=
  manifest_append_image (manifest_ensure_images (manifest_ensure m o) o) o e

theorem alookup_manifest_add_image_self (m : Manifest) (o : String) (e : Image) :
    alookup (manifest_add_image m o e) o =
      some { (alookup m o).getD om_empty with
             images := some (images_at m o ++ [e]) } := by
  unfold manifest_add_image manifest_append_image manifest_ensure_images
  rw [alookup_manifest_map_at_self, alookup_manifest_map_at_self,
    alookup_manifest_ensure_self]
  simp [images_at]

theorem alookup_manifest_add_image_ne {m : Manifest} {o o' : String} (e : Image)
    (h : o' ≠ o) : alookup (manifest_add_image m o e) o' = alookup m o' := by
  unfold manifest_add_image manifest_append_image manifest_ensure_images
  rw [alookup_manifest_map_at_ne _ h, alookup_manifest_map_at_ne _ h,
    alookup_manifest_ensure_ne h]

/-- Case analysis of one loop iteration of `generate_kustomize_args`: on
success the argument is `arg_of img`, the appended manifest entry is
`entry_of img`, and the manifest changes only at `o`. -/
theorem gen_image_step_ok {o : String} {m : Manifest} {img : Image} {a : String}
    {m' : Manifest} (h : gen_image_step o m img = .ok (a, m')) :
    a = arg_of img ∧ m' = manifest_add_image m o (entry_of img) ∧ img.name ≠ none := by
  unfold gen_image_step at h
  cases hn : img.name with
  | none => rw [hn] at h; exact absurd h (by simp)
  | some name =>
    rw [hn] at h
    simp only at h
    by_cases h1 : (!(img.newName.getD name).isEmpty && truthy img.newTag) = true
    · rw [if_pos h1] at h
      obtain ⟨ha, hm⟩ := Prod.mk.injEq .. ▸ Except.ok.inj h
      have htag : truthy img.newTag = true := (Bool.and_eq_true _ _ ▸ h1).2
      refine ⟨?_, ?_, by simp [hn]⟩
      · rw [← ha]; unfold arg_of; rw [hn]; simp [htag]
      · rw [← hm]; unfold manifest_add_image entry_of; rw [hn]; simp [htag]
    · rw [if_neg h1] at h
      by_cases h2 : (!(img.newName.getD name).isEmpty) = true
      · rw [if_pos h2] at h
        obtain ⟨ha, hm⟩ := Prod.mk.injEq .. ▸ Except.ok.inj h
        have htag : truthy img.newTag = false := by
          cases ht : truthy img.newTag with
          | false => rfl
          | true => exact absurd (by simp [h2, ht]) h1
        refine ⟨?_, ?_, by simp [hn]⟩
        · rw [← ha]; unfold arg_of; rw [hn]; simp [htag]
        · rw [← hm]; unfold manifest_add_image entry_of; rw [hn]; simp [htag]
      · rw [if_neg h2] at h
        exact absurd h (by simp)

/-- Well-shapedness of entries appended by `generate_kustomize_args`. -/
theorem entry_of_shape {img : Image} (h : img.name ≠ none) :
    (entry_of img).name = img.name ∧ (entry_of img).newName ≠ none ∧
      (entry_of img).fromOverlay = none ∧ (entry_of img).overlays = none := by
  unfold entry_of
  cases hn : img.name with
  | none => exact absurd hn h
  | some name =>
    by_cases ht : truthy img.newTag = true
    · simp [ht]
    · simp [Bool.eq_false_iff.mpr ht]

/-- Characterization of `gen_go` (the loop of `generate_kustomize_args`):
arguments accumulate in input order, the overlay's manifest images list is
extended by `entry_of` of each input in order, everything else is
untouched. -/
theorem gen_go_ok {o : String} :
    ∀ (imgs : List Image) (args : List String) (m : Manifest) (args' : List String)
      (m' : Manifest), gen_go o imgs args m = .ok (args', m') →
      args' = args ++ imgs.map arg_of ∧
      images_at m' o = images_at m o ++ imgs.map entry_of ∧
      (∀ o', o' ≠ o → alookup m' o' = alookup m o') ∧
      charts_field m' o = charts_field m o ∧
      (imgs = [] → m' = m) ∧
      (imgs ≠ [] → ∃ om, alookup m' o = some om ∧
        om.images = some (images_at m o ++ imgs.map entry_of)) := by
  intro imgs
  induction imgs with
  | nil =>
    intro args m args' m' h
    simp only [gen_go] at h
    obtain ⟨ha, hm⟩ := Prod.mk.injEq .. ▸ Except.ok.inj h
    subst ha; subst hm
    simp
  | cons img rest ih =>
    intro args m args' m' h
    simp only [gen_go] at h
    cases hstep : gen_image_step o m img with
    | error e => rw [hstep] at h; exact absurd h (by simp)
    | ok pair =>
      rw [hstep] at h
      obtain ⟨a, m₁⟩ := pair
      obtain ⟨ha, hm₁, hname⟩ := gen_image_step_ok hstep
      obtain ⟨A, B, C, D, E, F⟩ := ih (args ++ [a]) m₁ args' m' h
      have himg1 : images_at m₁ o = images_at m o ++ [entry_of img] := by
        rw [hm₁]
        simp [images_at, alookup_manifest_add_image_self]
      have hne1 : ∀ o', o' ≠ o → alookup m₁ o' = alookup m o' := by
        intro o' ho'
        rw [hm₁, alookup_manifest_add_image_ne _ ho']
      have hcf1 : charts_field m₁ o = charts_field m o := by
        rw [hm₁]
        simp [charts_field, alookup_manifest_add_image_self]
      refine ⟨?_, ?_, ?_, ?_, ?_, ?_⟩
      · rw [A, ha]; simp
      · rw [B, himg1]; simp
      · intro o' ho'; rw [C o' ho', hne1 o' ho']
      · rw [D, hcf1]
      · intro hcon; exact absurd hcon (by simp)
      · intro _
        by_cases hrest : rest = []
        · subst hrest
          have hm' : m' = m₁ := E rfl
          subst hm'
          rw [hm₁]
          refine ⟨_, alookup_manifest_add_image_self m o (entry_of img), ?_⟩
          simp
        · obtain ⟨om, hom, homi⟩ := F hrest
          refine ⟨om, hom, ?_⟩
          rw [homi, himg1]
          simp

theorem isEmpty_false_of_ne {s : String} (h : s ≠ "") : s.isEmpty = false := by
  cases hs : s.isEmpty with
  | false => rfl
  | true => exact absurd ((String.isEmpty_iff s).mp hs) h

/-- Success criterion of one `generate_kustomize_args` iteration: the
`name` key present and the effective new name (`newName` value, else the
name itself) non-empty. -/
def gen_ok (img : Image) : Bool :=
  match img.name with
  | none => false
  | some name => !(img.newName.getD name).isEmpty

theorem gen_image_step_of_gen_ok (o : String) (m : Manifest) {img : Image}
    (h : gen_ok img = true) :
    gen_image_step o m img = .ok (arg_of img, manifest_add_image m o (entry_of img)) := by
  unfold gen_ok at h
  cases hn : img.name with
  | none => rw [hn] at h; exact absurd h (by simp)
  | some name =>
    rw [hn] at h
    unfold gen_image_step arg_of entry_of manifest_add_image
    rw [hn]
    simp only at h ⊢
    cases ht : truthy img.newTag with
    | true => simp [h, ht]
    | false => simp [h, ht]

theorem gen_ok_of_step_ok {o : String} {m : Manifest} {img : Image} {a : String}
    {m' : Manifest} (h : gen_image_step o m img = .ok (a, m')) : gen_ok img = true := by
  unfold gen_image_step at h
  unfold gen_ok
  cases hn : img.name with
  | none => rw [hn] at h; exact absurd h (by simp)
  | some name =>
    rw [hn] at h
    simp only at h ⊢
    by_cases h1 : (!(img.newName.getD name).isEmpty && truthy img.newTag) = true
    · exact (Bool.and_eq_true _ _ ▸ h1).1
    · rw [if_neg h1] at h
      by_cases h2 : (!(img.newName.getD name).isEmpty) = true
      · exact h2
      · rw [if_neg h2] at h
        exact absurd h (by simp)

theorem images_at_manifest_add_image (m : Manifest) (o : String) (e : Image) :
    images_at (manifest_add_image m o e) o = images_at m o ++ [e] := by
  simp [images_at, alookup_manifest_add_image_self]

theorem gen_go_total (o : String) :
    ∀ (l : List Image), (∀ i ∈ l, gen_ok i = true) →
      ∀ (args : List String) (m : Manifest), ∃ r, gen_go o l args m = .ok r := by
  intro l
  induction l with
  | nil => exact fun _ args m => ⟨(args, m), rfl⟩
  | cons img rest ih =>
    intro h args m
    obtain ⟨r, hr⟩ := ih (fun i hi => h i (List.mem_cons_of_mem _ hi)) (args ++ [arg_of img])
      (manifest_add_image m o (entry_of img))
    refine ⟨r, ?_⟩
    simp only [gen_go]
    rw [gen_image_step_of_gen_ok o m (h img (List.mem_cons_self _ _))]
    exact hr

/-- Claim C2 (amended with the non-emptiness conditions the counterexample
forces): for a validator-accepted image entry whose `name` is non-empty,
with only `newTag` set (and non-empty) the generated batched argument is
`name=name:tag` (the new name falls back to the entry's own name), and with
only `newName` set (and non-empty) the argument is `name=newName` with no
tag segment. -/
theorem c2_argument_forms (o : String) (m : Manifest) (img : Image) (n : String)
    (hname : img.name = some n) (hn : n ≠ "")
    (hvalid : validate_images false [img] = .returned true []) :
    (∀ t, img.newName = none → img.newTag = some t → t ≠ "" →
      ∃ m', generate_kustomize_args o [img] m = .ok ([n ++ "=" ++ n ++ ":" ++ t], m')) ∧
    (∀ nn, img.newName = some nn → nn ≠ "" → img.newTag = none →
      ∃ m', generate_kustomize_args o [img] m = .ok ([n ++ "=" ++ nn], m')) := by
  constructor
  · intro t hnn hnt ht
    have hok : gen_ok img = true := by
      unfold gen_ok
      rw [hname, hnn]
      simp [isEmpty_false_of_ne hn]
    refine ⟨manifest_add_image m o (entry_of img), ?_⟩
    unfold generate_kustomize_args
    simp only [gen_go]
    rw [gen_image_step_of_gen_ok o m hok]
    simp only [gen_go]
    have harg : arg_of img = n ++ "=" ++ n ++ ":" ++ t := by
      unfold arg_of
      rw [hname]
      simp only [hnn, Option.getD_none, hnt, truthy, isEmpty_false_of_ne ht,
        Bool.not_false, if_true, Option.getD_some]
    rw [harg]
    simp
  · intro nn hnn hne hnt
    have hok : gen_ok img = true := by
      unfold gen_ok
      rw [hname, hnn]
      simp [isEmpty_false_of_ne hne]
    refine ⟨manifest_add_image m o (entry_of img), ?_⟩
    unfold generate_kustomize_args
    simp only [gen_go]
    rw [gen_image_step_of_gen_ok o m hok]
    simp only [gen_go]
    have harg : arg_of img = n ++ "=" ++ nn := by
      unfold arg_of
      rw [hname]
      simp only [hnn, Option.getD_some, hnt, truthy, if_false, Bool.false_eq_true]
    rw [harg]
    simp

/-- Witness for C2: a tag-only entry yields `app=app:v3`; a newName-only
entry yields `web=web2`. -/
theorem c2_argument_forms_witness :
    (∃ m', generate_kustomize_args "prod"
      [{ name := some "app", newTag := some "v3", overlays := some ["prod"] }] [] =
        .ok (["app" ++ "=" ++ "app" ++ ":" ++ "v3"], m')) ∧
    (∃ m', generate_kustomize_args "prod"
      [{ name := some "web", newName := some "web2", overlays := some ["prod"] }] [] =
        .ok (["web" ++ "=" ++ "web2"], m')) := by
  constructor
  · exact (c2_argument_forms "prod" []
      { name := some "app", newTag := some "v3", overlays := some ["prod"] } "app"
      rfl (by decide) (by decide)).1 "v3" rfl rfl (by decide)
  · exact (c2_argument_forms "prod" []
      { name := some "web", newName := some "web2", overlays := some ["prod"] } "web"
      rfl (by decide) (by decide)).2 "web2" rfl (by decide) rfl

/-- Counterexample to C2 as stated: validator-accepted entries with an empty
`newTag`, an empty `name`, or an empty `newName` do not produce the claimed
arguments — the tag segment is dropped for an empty tag, and an empty name
or empty newName raises `ValueError` instead of producing any argument. -/
theorem c2_counterexample :
    validate_images false
        [{ name := some "a", newTag := some "", overlays := some ["o"] }] =
      .returned true [] ∧
    generate_kustomize_args "o"
        [{ name := some "a", newTag := some "", overlays := some ["o"] }] [] =
      .ok (["a=a"],
        [("o", { images := some [{ name := some "a", newName := some "a" }],
                 charts := none })]) ∧
    "a=a" ≠ "a" ++ "=" ++ "a" ++ ":" ++ "" ∧
    validate_images false
        [{ name := some "", newTag := some "v", overlays := some ["o"] }] =
      .returned true [] ∧
    generate_kustomize_args "o"
        [{ name := some "", newTag := some "v", overlays := some ["o"] }] [] =
      .error (.valueError { name := some "", newTag := some "v", overlays := some ["o"] }) ∧
    validate_images false
        [{ name := some "a", newName := some "", overlays := some ["o"] }] =
      .returned true [] ∧
    generate_kustomize_args "o"
        [{ name := some "a", newName := some "", overlays := some ["o"] }] [] =
      .error (.valueError { name := some "a", newName := some "", overlays := some ["o"] }) :=
  ⟨by decide, rfl, by decide, by decide, rfl, by decide, rfl⟩

/-- Claim C7: applying the same resolved image change twice in succession
(identical `name`, `newName`, `newTag`) succeeds both times, generates the
same kustomize argument each time, and appends the same manifest entry each
time. -/
theorem c7_reapply_same_change (o : String) (img : Image) (m m₁ : Manifest) (a : String)
    (h : generate_kustomize_args o [img] m = .ok ([a], m₁)) :
    ∃ e m₂, images_at m₁ o = images_at m o ++ [e] ∧
      generate_kustomize_args o [img] m₁ = .ok ([a], m₂) ∧
      images_at m₂ o = images_at m₁ o ++ [e] := by
  unfold generate_kustomize_args at h
  simp only [gen_go] at h
  cases hstep : gen_image_step o m img with
  | error e => rw [hstep] at h; exact absurd h (by simp)
  | ok p =>
    rw [hstep] at h
    obtain ⟨a₀, m₀⟩ := p
    simp only [gen_go, List.nil_append] at h
    obtain ⟨ha₀, hm₀⟩ := Prod.mk.injEq .. ▸ Except.ok.inj h
    have hok := gen_ok_of_step_ok hstep
    obtain ⟨harg, hm, _⟩ := gen_image_step_ok hstep
    refine ⟨entry_of img, manifest_add_image m₁ o (entry_of img), ?_, ?_, ?_⟩
    · rw [← hm₀, hm]
      exact images_at_manifest_add_image m o (entry_of img)
    · unfold generate_kustomize_args
      simp only [gen_go]
      rw [gen_image_step_of_gen_ok o m₁ hok]
      simp only [gen_go, List.nil_append]
      have ha : a₀ = a := by injection ha₀
      rw [← harg, ha]
    · exact images_at_manifest_add_image m₁ o (entry_of img)

/-- A concrete tag-only image request, for the C7 witness. -/
def c7_img : Image := { name := some "app", newTag := some "v3", overlays := some ["prod"] }

/-- The manifest produced by applying `c7_img` once to the empty manifest. -/
def c7_m1 : Manifest :=
  [("prod", { images := some [{ name := some "app", newName := some "app", newTag := some "v3" }], charts := none })]

/-- Witness for C7 at a concrete tag-only change applied twice. -/
theorem c7_reapply_same_change_witness :
    ∃ e m₂,
      images_at c7_m1 "prod" = images_at [] "prod" ++ [e] ∧
      generate_kustomize_args "prod" [c7_img] c7_m1 = .ok (["app=app:v3"], m₂) ∧
      images_at m₂ "prod" = images_at c7_m1 "prod" ++ [e] := by
  exact c7_reapply_same_change "prod" c7_img [] c7_m1 "app=app:v3" rfl

/-- Claim C10 (amended): the `ValueError` branch of
`generate_kustomize_args` is unreachable for lists in which every image has
a non-empty `name` value AND every present `newName` value is non-empty:
the generation succeeds outright. -/
theorem c10_value_error_unreachable (o : String) (m : Manifest) (imgs : List Image)
    (h1 : ∀ i ∈ imgs, i.name ≠ none ∧ i.name ≠ some "")
    (h2 : ∀ i ∈ imgs, ∀ s, i.newName = some s → s ≠ "") :
    ∃ r, generate_kustomize_args o imgs m = .ok r := by
  refine gen_go_total o imgs ?_ [] m
  intro i hi
  obtain ⟨hnn, hne⟩ := h1 i hi
  unfold gen_ok
  cases hn : i.name with
  | none => exact absurd hn hnn
  | some n =>
    have hn' : n ≠ "" := by
      intro hcon
      exact hne (by rw [hn, hcon])
    cases hnew : i.newName with
    | none => simp [isEmpty_false_of_ne hn']
    | some s => simp [isEmpty_false_of_ne (h2 i hi s hnew)]

/-- Witness for C10 on a list with a tag-only and a renamed entry. -/
theorem c10_value_error_unreachable_witness :
    ∃ r, generate_kustomize_args "o"
      [{ name := some "app", newTag := some "v3" },
       { name := some "web", newName := some "web2" }] [] = .ok r := by
  exact c10_value_error_unreachable "o" []
    [{ name := some "app", newTag := some "v3" },
     { name := some "web", newName := some "web2" }] (by decide) (by decide)

/-- Counterexample to C10 as stated: an image with non-empty name `a` but an
empty (present) `newName` reaches the `ValueError` branch, because the
fallback to the image's own name happens only when the `newName` key is
absent. -/
theorem c10_counterexample :
    ({ name := some "a", newName := some "" } : Image).name = some "a" ∧
    "a" ≠ "" ∧
    generate_kustomize_args "o" [{ name := some "a", newName := some "" }] [] =
      .error (.valueError { name := some "a", newName := some "" }) :=
  ⟨rfl, by decide, rfl⟩

/-! ### Characterizing image resolution (`get_images_from_overlays`) -/

/-- `image["overlays"]` as a plain list (the loop iterates it). -/
def overlays_list (img : Image) : List String := img.overlays.getD []

/-- The resolved entry of a request (itself when `fromOverlay` is absent,
the source overlay's entry otherwise); the request itself as a don't-care
value on resolution failure. -/
def resolve_or_self (fs : Fs) (img : Image) : Image :=
  match resolve_image fs img with
  | .ok v => v
  | .error _ => img

/-- One copy of `v` per occurrence of `o` in the request's overlay list. -/
def contrib {α : Type} (o : String) (os : List String) (v : α) : List α :=
  (os.filter fun x => decide (x = o)).map fun _ => v

/-- The resolved entries a change-set contributes to overlay `o`, in the
order the change requests were supplied. -/
def resolved_seq (fs : Fs) (o : String) : List Image → List Image
  | [] => []
  | r :: rest => contrib o (overlays_list r) (resolve_or_self fs r) ++ resolved_seq fs o rest

/-- Whether some request targets overlay `o`. -/
def targets (o : String) : List Image → Bool
  | [] => false
  | r :: rest => decide (o ∈ overlays_list r) || targets o rest

theorem contrib_nil_of_not_mem {α : Type} {o : String} {os : List String} (v : α)
    (h : o ∉ os) : contrib o os v = [] := by
  unfold contrib
  rw [List.filter_eq_nil_iff.mpr]
  · rfl
  · intro x hx
    simp only [decide_eq_true_eq]
    intro hcon
    exact h (hcon ▸ hx)

theorem contrib_ne_nil_of_mem {α : Type} {o : String} {os : List String} (v : α)
    (h : o ∈ os) : contrib o os v ≠ [] := by
  unfold contrib
  intro hcon
  rw [List.map_eq_nil_iff] at hcon
  have : o ∈ os.filter fun x => decide (x = o) := List.mem_filter.mpr ⟨h, by simp⟩
  rw [hcon] at this
  exact List.not_mem_nil o this

theorem resolved_seq_nil_of_not_targets {fs : Fs} {o : String} :
    ∀ {l : List Image}, targets o l = false → resolved_seq fs o l = [] := by
  intro l
  induction l with
  | nil => intro _; rfl
  | cons r rest ih =>
    intro h
    simp only [targets, Bool.or_eq_false_iff, decide_eq_false_iff_not] at h
    simp only [resolved_seq, contrib_nil_of_not_mem _ h.1, List.nil_append]
    exact ih h.2

theorem resolved_seq_ne_nil_of_targets {fs : Fs} {o : String} :
    ∀ {l : List Image}, targets o l = true → resolved_seq fs o l ≠ [] := by
  intro l
  induction l with
  | nil => intro h; exact absurd h (by simp [targets])
  | cons r rest ih =>
    intro h
    simp only [targets, Bool.or_eq_true] at h
    simp only [resolved_seq]
    cases h with
    | inl h1 =>
      intro hcon
      rw [List.append_eq_nil] at hcon
      exact contrib_ne_nil_of_mem _ (of_decide_eq_true h1) hcon.1
    | inr h2 =>
      intro hcon
      rw [List.append_eq_nil] at hcon
      exact ih h2 hcon.2

theorem gifo_overlays_error {fs : Fs} {img : Image} {e : PErr}
    (he : resolve_image fs img = .error e) :
    ∀ (os : List String) (acc : List (String × List Image)), os ≠ [] →
      gifo_overlays fs img os acc = .error e := by
  intro os acc hos
  cases os with
  | nil => exact absurd rfl hos
  | cons o rest => simp only [gifo_overlays]; rw [he]

theorem gifo_overlays_ok {fs : Fs} {img : Image} {v : Image}
    (hv : resolve_image fs img = .ok v) :
    ∀ (os : List String) (acc : List (String × List Image)),
      ∃ acc', gifo_overlays fs img os acc = .ok acc' ∧
        ∀ o, alookup acc' o =
          if o ∈ os then some ((alookup acc o).getD [] ++ contrib o os v)
          else alookup acc o := by
  intro os
  induction os with
  | nil =>
    intro acc
    exact ⟨acc, rfl, fun o => by simp⟩
  | cons o₀ rest ih =>
    intro acc
    obtain ⟨acc', hacc', hchar⟩ := ih (bucket_append (bucket_ensure acc o₀) o₀ v)
    refine ⟨acc', ?_, ?_⟩
    · simp only [gifo_overlays]
      rw [hv]
      exact hacc'
    · intro o
      have hstep : alookup (bucket_append (bucket_ensure acc o₀) o₀ v) o =
          if o = o₀ then some ((alookup acc o).getD [] ++ [v]) else alookup acc o := by
        by_cases ho : o = o₀
        · subst ho
          rw [if_pos rfl, alookup_bucket_append_self, alookup_bucket_ensure_self]
          simp
        · rw [if_neg ho, alookup_bucket_append_ne _ ho, alookup_bucket_ensure_ne ho]
      rw [hchar o, hstep]
      have hcontrib : contrib o (o₀ :: rest) v =
          (if o₀ = o then [v] else []) ++ contrib o rest v := by
        unfold contrib
        by_cases ho : o₀ = o
        · simp [List.filter, ho]
        · simp [List.filter, ho]
      by_cases h1 : o ∈ rest
      · rw [if_pos h1]
        by_cases h2 : o = o₀
        · subst h2
          rw [if_pos rfl, if_pos (List.mem_cons_self _ _), hcontrib]
          simp
        · rw [if_neg h2, if_pos (List.mem_cons_of_mem _ h1), hcontrib]
          rw [if_neg (fun hh : o₀ = o => h2 hh.symm)]
          simp
      · rw [if_neg h1]
        by_cases h2 : o = o₀
        · subst h2
          rw [if_pos rfl, if_pos (List.mem_cons_self _ _), hcontrib, if_pos rfl,
            contrib_nil_of_not_mem _ h1]
          simp
        · rw [if_neg h2]
          rw [if_neg (fun hh => (List.mem_cons.mp hh).elim (fun he => h2 he) (fun he => h1 he))]

/-- Characterization of `gifo_go`: on success every request's overlay key
existed and every needed resolution succeeded, and every bucket holds
exactly the resolved entries of the requests targeting it, in supply
order. -/
theorem gifo_go_ok {fs : Fs} :
    ∀ (reqs : List Image) (acc bs : List (String × List Image)),
      gifo_go fs reqs acc = .ok bs →
      (∀ r ∈ reqs, r.overlays ≠ none ∧
        (overlays_list r ≠ [] → ∃ v, resolve_image fs r = .ok v)) ∧
      (∀ o, alookup bs o =
        if targets o reqs then some ((alookup acc o).getD [] ++ resolved_seq fs o reqs)
        else alookup acc o) := by
  intro reqs
  induction reqs with
  | nil =>
    intro acc bs h
    simp only [gifo_go] at h
    obtain rfl := Except.ok.inj h
    exact ⟨fun r hr => absurd hr (List.not_mem_nil r), fun o => by simp [targets]⟩
  | cons r rest ih =>
    intro acc bs h
    simp only [gifo_go] at h
    cases hov : r.overlays with
    | none => rw [hov] at h; exact absurd h (by simp)
    | some os =>
      rw [hov] at h
      cases hres : resolve_image fs r with
      | error e =>
        cases os with
        | nil =>
          simp only [gifo_overlays] at h
          obtain ⟨h1, h2⟩ := ih acc bs h
          refine ⟨?_, ?_⟩
          · intro r' hr'
            cases List.mem_cons.mp hr' with
            | inl heq =>
              subst heq
              refine ⟨by rw [hov]; simp, ?_⟩
              intro hcon
              exact absurd (by rw [overlays_list, hov]; rfl) hcon
            | inr hmem => exact h1 r' hmem
          · intro o
            rw [h2 o]
            have hol : overlays_list r = [] := by rw [overlays_list, hov]; rfl
            have ht : targets o (r :: rest) = targets o rest := by
              simp [targets, hol]
            have hseq : resolved_seq fs o (r :: rest) = resolved_seq fs o rest := by
              simp [resolved_seq, hol, contrib]
            rw [ht, hseq]
        | cons o₀ os' =>
          have herr := gifo_overlays_error hres (o₀ :: os') acc (by simp)
          simp only [herr] at h
          exact absurd h (by simp)
      | ok v =>
        obtain ⟨acc₁, hacc₁, hchar⟩ := gifo_overlays_ok hres os acc
        simp only [hacc₁] at h
        obtain ⟨h1, h2⟩ := ih acc₁ bs h
        have hol : overlays_list r = os := by rw [overlays_list, hov]; rfl
        have hros : resolve_or_self fs r = v := by rw [resolve_or_self, hres]
        refine ⟨?_, ?_⟩
        · intro r' hr'
          cases List.mem_cons.mp hr' with
          | inl heq =>
            subst heq
            exact ⟨by rw [hov]; simp, fun _ => ⟨v, hres⟩⟩
          | inr hmem => exact h1 r' hmem
        · intro o
          rw [h2 o, hchar o]
          have hts : targets o (r :: rest) = (decide (o ∈ os) || targets o rest) := by
            simp [targets, hol]
          have hsq : resolved_seq fs o (r :: rest) =
              contrib o os v ++ resolved_seq fs o rest := by
            simp [resolved_seq, hol, hros]
          rw [hts, hsq]
          by_cases hm : o ∈ os
          · by_cases htr : targets o rest = true
            · simp [hm, htr, List.append_assoc]
            · have htr' : targets o rest = false := Bool.eq_false_iff.mpr htr
              simp [hm, htr', resolved_seq_nil_of_not_targets htr']
          · by_cases htr : targets o rest = true
            · simp [hm, htr, contrib_nil_of_not_mem v hm]
            · have htr' : targets o rest = false := Bool.eq_false_iff.mpr htr
              simp [hm, htr']

/-- Claim C6: each target overlay's resolved image list preserves the order
in which the change requests were supplied, and the batched kustomize
arguments follow the order of the images handed to
`generate_kustomize_args`. -/
theorem c6_supply_order (fs : Fs) (reqs : List Image) (bs : List (String × List Image))
    (h : get_images_from_overlays reqs fs = .ok bs) :
    (∀ o l, alookup bs o = some l → l = resolved_seq fs o reqs) ∧
    (∀ o imgs m args m', generate_kustomize_args o imgs m = .ok (args, m') →
      args = imgs.map arg_of) := by
  constructor
  · intro o l hl
    obtain ⟨_, h2⟩ := gifo_go_ok reqs [] bs h
    have hh := h2 o
    rw [hl] at hh
    by_cases ht : targets o reqs = true
    · rw [if_pos ht] at hh
      have := Option.some.inj hh
      simpa [alookup] using this
    · rw [if_neg ht] at hh
      simp [alookup] at hh
  · intro o imgs m args m' hg
    obtain ⟨A, _⟩ := gen_go_ok imgs [] m args m' hg
    simpa using A

/-- Concrete requests for the C6 witness: the first targets two overlays. -/
def c6_r1 : Image := { name := some "app", newTag := some "v3", overlays := some ["dev", "prod"] }

def c6_r2 : Image := { name := some "web", newName := some "web2", overlays := some ["dev"] }

def c6_fs : Fs := { dirs := ["dev", "prod"], kust := [] }

def c6_bs : List (String × List Image) := [("dev", [c6_r1, c6_r2]), ("prod", [c6_r1])]

/-- The manifest produced by generating arguments for both requests. -/
def c6_m1 : Manifest :=
  [("dev", { images := some [{ name := some "app", newName := some "app", newTag := some "v3" }, { name := some "web", newName := some "web2" }], charts := none })]

/-- Witness for C6: the `dev` bucket lists both requests in supply order,
and a generation run returns the arguments in that order. -/
theorem c6_supply_order_witness :
    ([c6_r1, c6_r2] : List Image) = resolved_seq c6_fs "dev" [c6_r1, c6_r2] ∧
    ["app=app:v3", "web=web2"] = ([c6_r1, c6_r2] : List Image).map arg_of := by
  constructor
  · exact (c6_supply_order c6_fs [c6_r1, c6_r2] c6_bs rfl).1 "dev" [c6_r1, c6_r2] rfl
  · exact (c6_supply_order c6_fs [c6_r1, c6_r2] c6_bs rfl).2 "dev" [c6_r1, c6_r2] []
      ["app=app:v3", "web=web2"] c6_m1 rfl

theorem gifo_go_error_of_failed_resolve {fs : Fs} {r : Image} {os : List String}
    {e : PErr} (hov : r.overlays = some os) (hne : os ≠ [])
    (hres : resolve_image fs r = .error e) :
    ∀ (reqs : List Image) (acc : List (String × List Image)), r ∈ reqs →
      ∃ e', gifo_go fs reqs acc = .error e' := by
  intro reqs
  induction reqs with
  | nil => intro acc hr; exact absurd hr (List.not_mem_nil r)
  | cons x rest ih =>
    intro acc hr
    cases List.mem_cons.mp hr with
    | inl heq =>
      subst heq
      refine ⟨e, ?_⟩
      simp only [gifo_go, hov, gifo_overlays_error hres os acc hne]
    | inr hmem =>
      cases hxov : x.overlays with
      | none => exact ⟨.keyError "overlays", by simp [gifo_go, hxov]⟩
      | some xos =>
        cases hgo : gifo_overlays fs x xos acc with
        | error e2 => exact ⟨e2, by simp [gifo_go, hxov, hgo]⟩
        | ok acc₁ =>
          obtain ⟨e', he'⟩ := ih acc₁ hmem
          exact ⟨e', by simp [gifo_go, hxov, hgo, he']⟩

/-- Claim C1 (amended): for an image change request with `fromOverlay` set
whose `name` is absent from the source overlay's state, resolution fails —
alone it fails precisely with the source-entry-not-found `KeyError`, within
any change-set the whole resolution fails, and `main` then terminates with
the filesystem untouched and no mutation command run. (For chart requests
the claim is false: see the counterexample.) -/
theorem c1_image_source_missing (fs : Fs) (reqs : List Image) (charts : List Chart)
    (r : Image) (src n : String) (os : List String) (st : List (String × Image))
    (hr : r ∈ reqs) (hfrom : r.fromOverlay = some src) (hname : r.name = some n)
    (hos : r.overlays = some os) (hne : os ≠ [])
    (hread : read_images_from_overlay src fs = .ok st) (hmiss : alookup st n = none) :
    get_images_from_overlays [r] fs = .error (.sourceEntryNotFound src n) ∧
    (∃ e, get_images_from_overlays reqs fs = .error e) ∧
    (∃ e, main_run reqs charts fs = (fs, [], .error e)) := by
  have hres : resolve_image fs r = .error (.sourceEntryNotFound src n) := by
    simp only [resolve_image, hfrom, hread, hname, hmiss]
  refine ⟨?_, ?_, ?_⟩
  · unfold get_images_from_overlays
    cases os with
    | nil => exact absurd rfl hne
    | cons o₀ os' =>
      simp only [gifo_go, hos, gifo_overlays, hres]
  · obtain ⟨e', he'⟩ := gifo_go_error_of_failed_resolve hos hne hres reqs [] hr
    exact ⟨e', he'⟩
  · cases hval : validate_promotion_lists reqs charts with
    | error e0 => exact ⟨e0, by simp [main_run, hval]⟩
    | ok u =>
      obtain ⟨e', he'⟩ := gifo_go_error_of_failed_resolve hos hne hres reqs [] hr
      exact ⟨e', by simp [main_run, hval, get_images_from_overlays, he']⟩

def c1w_fs : Fs :=
  { dirs := ["dev", "prod"],
    kust := [("dev", { images := some [{ name := some "other", newName := some "o2" }] })] }

def c1w_req : Image :=
  { name := some "svc", fromOverlay := some "dev", overlays := some ["prod"] }

/-- Witness for C1: overlay `dev` declares only image `other`, so the
`fromOverlay` request for `svc` fails resolution and no mutation happens. -/
theorem c1_image_source_missing_witness :
    get_images_from_overlays [c1w_req] c1w_fs = .error (.sourceEntryNotFound "dev" "svc") ∧
    (∃ e, get_images_from_overlays [c1w_req] c1w_fs = .error e) ∧
    (∃ e, main_run [c1w_req] [] c1w_fs = (c1w_fs, [], .error e)) :=
  c1_image_source_missing c1w_fs [c1w_req] [] c1w_req "dev" "svc" ["prod"]
    [("other", { name := some "other", newName := some "o2" })]
    (List.mem_singleton.mpr rfl) rfl rfl rfl (by simp) rfl rfl

def c1c_fs : Fs :=
  { dirs := ["A", "B"],
    kust := [("A", { helmCharts := some [{ name := some "other", version := some "1.0" }] }),
             ("B", { helmCharts := some [{ name := some "x", version := some "0.1" }] })] }

def c1c_req : Chart := { name := some "svc", fromOverlay := some "A", overlays := some ["B"] }

/-- Counterexample to C1 as stated: a chart `fromOverlay` request whose name
is absent from the source overlay's charts is silently skipped — resolution
succeeds with an empty bucket instead of failing with a
source-entry-not-found error, and the run then proceeds into the mutation
phase (the overlay's kustomization file is rewritten and `kustomize cfg
fmt` runs) before dying on an unrelated `KeyError`. -/
theorem c1_counterexample :
    read_charts_from_overlay "A" c1c_fs =
      .ok [("other", { name := some "other", version := some "1.0" })] ∧
    alookup [("other", ({ name := some "other", version := some "1.0" } : Chart))] "svc" =
      none ∧
    get_charts_from_overlays [c1c_req] c1c_fs = .ok [("B", [])] ∧
    main_run [] [c1c_req] c1c_fs =
      (c1c_fs, [["kustomize", "cfg", "fmt", "kustomization.yaml"]], .error (.keyError "B")) :=
  ⟨rfl, rfl, rfl, rfl⟩

/-! ### Characterizing `update_kustomize_charts` -/

/-- The composite of the three manifest mutations one chart match performs. -/
def manifest_add_chart (m : Manifest) (o : String) (c : Chart) : Manifest :=
  manifest_append_chart (manifest_ensure_charts (manifest_ensure m o) o) o c

theorem alookup_manifest_add_chart_self (m : Manifest) (o : String) (c : Chart) :
    alookup (manifest_add_chart m o c) o =
      some { (alookup m o).getD om_empty with
             charts := some (charts_at m o ++ [c]) } := by
  unfold manifest_add_chart manifest_append_chart manifest_ensure_charts
  rw [alookup_manifest_map_at_self, alookup_manifest_map_at_self,
    alookup_manifest_ensure_self]
  simp [charts_at]

theorem alookup_manifest_add_chart_ne {m : Manifest} {o o' : String} (c : Chart)
    (h : o' ≠ o) : alookup (manifest_add_chart m o c) o' = alookup m o' := by
  unfold manifest_add_chart manifest_append_chart manifest_ensure_charts
  rw [alookup_manifest_map_at_ne _ h, alookup_manifest_map_at_ne _ h,
    alookup_manifest_ensure_ne h]

theorem charts_at_manifest_add_chart (m : Manifest) (o : String) (c : Chart) :
    charts_at (manifest_add_chart m o c) o = charts_at m o ++ [c] := by
  simp [charts_at, alookup_manifest_add_chart_self]

theorem images_field_manifest_add_chart (m : Manifest) (o : String) (c : Chart) :
    images_field (manifest_add_chart m o c) o = images_field m o := by
  simp [images_field, alookup_manifest_add_chart_self]

theorem charts_field_manifest_add_chart (m : Manifest) (o : String) (c : Chart) :
    charts_field (manifest_add_chart m o c) o = some (charts_at m o ++ [c]) := by
  simp [charts_field, alookup_manifest_add_chart_self]

/-- The in-memory update the scan applies to a declaration. -/
def upd_decl (chart : Chart) (d : Chart) : Chart :=
  if d.name = chart.name then { d with version := chart.version } else d

/-- How many declarations the scan matches for one request. -/
def match_count (chart : Chart) (decls : List Chart) : Nat :=
  (decls.filter fun d => decide (d.name = chart.name)).length

theorem upd_decl_name (chart d : Chart) : (upd_decl chart d).name = d.name := by
  unfold upd_decl
  by_cases h : d.name = chart.name
  · rw [if_pos h]
  · rw [if_neg h]

theorem match_count_zero_iff (chart : Chart) (decls : List Chart) :
    match_count chart decls = 0 ↔ ∀ d ∈ decls, d.name ≠ chart.name := by
  unfold match_count
  rw [List.length_eq_zero, List.filter_eq_nil_iff]
  simp

/-- Characterization of the scan for a request with both `name` and
`version` present over declarations that all carry names: it succeeds,
updates exactly the matching declarations' versions, appends one manifest
chart entry per match, and reports `found` accordingly. -/
theorem apply_chart_ok_of_named {overlay : String} {chart : Chart} {cn v : String}
    (hcn : chart.name = some cn) (hcv : chart.version = some v) :
    ∀ (decls : List Chart) (m : Manifest) (found : Bool),
      (∀ d ∈ decls, d.name ≠ none) →
      ∃ m' f, apply_chart_to_decls overlay chart decls m found =
          .ok (decls.map (upd_decl chart), m', f) ∧
        (f = true ↔ (found = true ∨ 0 < match_count chart decls)) := by
  intro decls
  induction decls with
  | nil =>
    intro m found _
    refine ⟨m, found, rfl, ?_⟩
    simp [match_count]
  | cons d ds ih =>
    intro m found hnames
    cases hdn : d.name with
    | none => exact absurd hdn (hnames d (List.mem_cons_self _ _))
    | some dn =>
      by_cases hm : dn = cn
      · obtain ⟨m', f, heq, hiff⟩ := ih (manifest_add_chart m overlay chart) true
          (fun x hx => hnames x (List.mem_cons_of_mem _ hx))
        refine ⟨m', f, ?_, ?_⟩
        · simp only [apply_chart_to_decls, hdn, hcn, hcv, if_pos hm]
          rw [show manifest_append_chart
              (manifest_ensure_charts (manifest_ensure m overlay) overlay) overlay chart =
              manifest_add_chart m overlay chart from rfl]
          rw [heq]
          simp only [List.map]
          have hupd : upd_decl chart d = { d with version := some v } := by
            unfold upd_decl
            rw [if_pos (by rw [hdn, hcn, hm]), hcv]
          rw [hupd, hdn]
        · rw [hiff]
          have hpos : 0 < match_count chart (d :: ds) := by
            unfold match_count
            simp [List.filter, hdn, hcn, hm]
          simp [hpos]
      · obtain ⟨m', f, heq, hiff⟩ := ih m found
          (fun x hx => hnames x (List.mem_cons_of_mem _ hx))
        have hne : ¬(dn = cn) := hm
        refine ⟨m', f, ?_, ?_⟩
        · simp only [apply_chart_to_decls, hdn, hcn, if_neg hne]
          rw [heq]
          simp only [List.map]
          have hupd : upd_decl chart d = d := by
            unfold upd_decl
            rw [if_neg (by rw [hdn, hcn]; intro hc; exact hne (Option.some.inj hc))]
          rw [hupd]
        · rw [hiff]
          have hcount : match_count chart (d :: ds) = match_count chart ds := by
            unfold match_count
            simp [List.filter, hdn, hcn, hm]
          rw [hcount]

/-- Success facts of the scan, with no shape hypotheses: the manifest gains
one verbatim copy of the request per match (and nothing else), images and
other overlays are untouched, and `found` reflects whether any match
occurred. -/
theorem apply_chart_ok_facts {overlay : String} {chart : Chart} :
    ∀ {decls : List Chart} {m : Manifest} {found : Bool} {decls' : List Chart}
      {m' : Manifest} {f : Bool},
      apply_chart_to_decls overlay chart decls m found = .ok (decls', m', f) →
      (∀ o', o' ≠ overlay → alookup m' o' = alookup m o') ∧
      images_field m' overlay = images_field m overlay ∧
      (∃ k, charts_at m' overlay = charts_at m overlay ++ List.replicate k chart ∧
        (f = true ↔ (found = true ∨ 0 < k)) ∧
        (0 < k → ∃ l, charts_field m' overlay = some l ∧ l ≠ []) ∧
        (k = 0 → m' = m)) := by
  intro decls
  induction decls with
  | nil =>
    intro m found decls' m' f h
    simp only [apply_chart_to_decls] at h
    obtain ⟨hd, hmf⟩ := Prod.mk.injEq .. ▸ Except.ok.inj h
    obtain ⟨hm, hf⟩ := Prod.mk.injEq .. ▸ hmf
    subst hm; subst hf
    refine ⟨fun o' _ => rfl, rfl, 0, by simp, by simp, by simp, fun _ => rfl⟩
  | cons d ds ih =>
    intro m found decls' m' f h
    simp only [apply_chart_to_decls] at h
    cases hdn : d.name with
    | none => rw [hdn] at h; exact absurd h (by simp)
    | some dn =>
      rw [hdn] at h
      cases hcn : chart.name with
      | none => rw [hcn] at h; exact absurd h (by simp)
      | some cn =>
        rw [hcn] at h
        simp only at h
        by_cases hm : dn = cn
        · rw [if_pos hm] at h
          cases hv : chart.version with
          | none => rw [hv] at h; exact absurd h (by simp)
          | some v =>
            rw [hv] at h
            simp only at h
            cases hrec : apply_chart_to_decls overlay chart ds
                (manifest_append_chart
                  (manifest_ensure_charts (manifest_ensure m overlay) overlay)
                  overlay chart) true with
            | error e => rw [hrec] at h; exact absurd h (by simp)
            | ok p =>
              rw [hrec] at h
              obtain ⟨ds'', m'', f''⟩ := p
              simp only at h
              obtain ⟨hd, hmf⟩ := Prod.mk.injEq .. ▸ Except.ok.inj h
              obtain ⟨hm2, hf2⟩ := Prod.mk.injEq .. ▸ hmf
              subst hm2; subst hf2
              have hrec' : apply_chart_to_decls overlay chart ds
                  (manifest_add_chart m overlay chart) true =
                  .ok (ds'', m'', f'') := hrec
              obtain ⟨A, B, k, hk, hiff, hcf, hk0⟩ := ih hrec'
              refine ⟨?_, ?_, k + 1, ?_, ?_, ?_, ?_⟩
              · intro o' ho'
                rw [A o' ho', alookup_manifest_add_chart_ne _ ho']
              · rw [B, images_field_manifest_add_chart]
              · rw [hk, charts_at_manifest_add_chart]
                simp [List.replicate_succ]
              · rw [hiff]
                simp
              · intro _
                by_cases hkz : k = 0
                · subst hkz
                  rw [hk0 rfl, charts_field_manifest_add_chart]
                  exact ⟨_, rfl, by simp⟩
                · exact hcf (Nat.pos_of_ne_zero hkz)
              · intro hcon
                exact absurd hcon (Nat.succ_ne_zero k)
        · rw [if_neg hm] at h
          cases hrec : apply_chart_to_decls overlay chart ds m found with
          | error e => rw [hrec] at h; exact absurd h (by simp)
          | ok p =>
            rw [hrec] at h
            obtain ⟨ds'', m'', f''⟩ := p
            simp only at h
            obtain ⟨hd, hmf⟩ := Prod.mk.injEq .. ▸ Except.ok.inj h
            obtain ⟨hm2, hf2⟩ := Prod.mk.injEq .. ▸ hmf
            subst hm2; subst hf2
            exact ih hrec

/-- A chart absent from the declarations (and every earlier request
matching) makes the request loop fail with `chartNotFound` naming that
chart. -/
theorem charts_loop_not_found {overlay : String} :
    ∀ (charts decls : List Chart) (m : Manifest),
      (∀ c ∈ charts, c.name ≠ none ∧ c.version ≠ none) →
      (∀ d ∈ decls, d.name ≠ none) →
      (∃ c ∈ charts, ∀ d ∈ decls, d.name ≠ c.name) →
      ∃ cn, (∃ c ∈ charts, c.name = some cn ∧ ∀ d ∈ decls, d.name ≠ some cn) ∧
        charts_loop overlay charts decls m = .error (.chartNotFound overlay cn) := by
  intro charts
  induction charts with
  | nil =>
    intro decls m _ _ hmiss
    obtain ⟨c, hc, _⟩ := hmiss
    exact absurd hc (List.not_mem_nil c)
  | cons c cs ih =>
    intro decls m hcs hds hmiss
    obtain ⟨hcname, hcver⟩ := hcs c (List.mem_cons_self _ _)
    cases hcn : c.name with
    | none => exact absurd hcn hcname
    | some cn =>
    cases hcv : c.version with
    | none => exact absurd hcv hcver
    | some v =>
    obtain ⟨m', f, happly, hiff⟩ :=
      @apply_chart_ok_of_named overlay c cn v hcn hcv decls m false hds
    by_cases hzero : match_count c decls = 0
    · have hf : f = false := by
        cases hfv : f with
        | false => rfl
        | true =>
          cases hiff.mp hfv with
          | inl h' => exact absurd h' (by simp)
          | inr h' => rw [hzero] at h'; exact absurd h' (by simp)
      refine ⟨cn, ⟨c, List.mem_cons_self _ _, hcn, ?_⟩, ?_⟩
      · intro d hd
        rw [← hcn]
        exact (match_count_zero_iff c decls).mp hzero d hd
      · simp [charts_loop, happly, hf, hcn]
    · have hf : f = true := hiff.mpr (Or.inr (Nat.pos_of_ne_zero hzero))
      obtain ⟨c', hc'mem, hc'miss⟩ := hmiss
      have hc'cs : c' ∈ cs := by
        cases List.mem_cons.mp hc'mem with
        | inl heq =>
          subst heq
          exact absurd ((match_count_zero_iff c' decls).mpr hc'miss) hzero
        | inr hm => exact hm
      have hds' : ∀ d ∈ decls.map (upd_decl c), d.name ≠ none := by
        intro d hd
        obtain ⟨d₀, hd₀, rfl⟩ := List.mem_map.mp hd
        rw [upd_decl_name]
        exact hds d₀ hd₀
      have hmiss' : ∃ cc ∈ cs, ∀ d ∈ decls.map (upd_decl c), d.name ≠ cc.name := by
        refine ⟨c', hc'cs, ?_⟩
        intro d hd
        obtain ⟨d₀, hd₀, rfl⟩ := List.mem_map.mp hd
        rw [upd_decl_name]
        exact hc'miss d₀ hd₀
      obtain ⟨cn', ⟨cc, hccmem, hcc, hccmiss⟩, hloop⟩ :=
        ih (decls.map (upd_decl c)) m'
          (fun x hx => hcs x (List.mem_cons_of_mem _ hx)) hds' hmiss'
      refine ⟨cn', ⟨cc, List.mem_cons_of_mem _ hccmem, hcc, ?_⟩, ?_⟩
      · intro d hd
        have hx := hccmiss (upd_decl c d) (List.mem_map.mpr ⟨d, hd, rfl⟩)
        rw [upd_decl_name] at hx
        exact hx
      · simp only [charts_loop, happly, hf]
        exact hloop

/-- Success facts of the per-overlay request loop: the overlay's manifest
charts list is extended by verbatim copies of the requests (one per match,
at least one per request), everything else untouched. -/
theorem charts_loop_ok_facts {overlay : String} :
    ∀ (charts decls : List Chart) (m : Manifest) {decls' : List Chart} {m' : Manifest},
      charts_loop overlay charts decls m = .ok (decls', m') →
      (∀ o', o' ≠ overlay → alookup m' o' = alookup m o') ∧
      images_field m' overlay = images_field m overlay ∧
      (∃ ap, charts_at m' overlay = charts_at m overlay ++ ap ∧ ∀ e ∈ ap, e ∈ charts) ∧
      (charts ≠ [] → ∃ l, charts_field m' overlay = some l ∧ l ≠ []) ∧
      (charts = [] → m' = m) := by
  intro charts
  induction charts with
  | nil =>
    intro decls m decls' m' h
    simp only [charts_loop] at h
    obtain ⟨hd, hm⟩ := Prod.mk.injEq .. ▸ Except.ok.inj h
    subst hm
    exact ⟨fun _ _ => rfl, rfl, ⟨[], by simp, by simp⟩, fun hc => absurd rfl hc, fun _ => rfl⟩
  | cons c cs ih =>
    intro decls m decls' m' h
    simp only [charts_loop] at h
    cases happ : apply_chart_to_decls overlay c decls m false with
    | error e => rw [happ] at h; exact absurd h (by simp)
    | ok p =>
      rw [happ] at h
      obtain ⟨ds₁, m₁, f⟩ := p
      simp only at h
      by_cases hf : f = true
      · rw [if_pos hf] at h
        obtain ⟨A₁, B₁, k, hk, hiff, hcf, hk0⟩ := apply_chart_ok_facts happ
        obtain ⟨A₂, B₂, ⟨ap, hap, hapmem⟩, hcf₂, hnil₂⟩ := ih ds₁ m₁ h
        have hkpos : 0 < k := by
          cases hiff.mp hf with
          | inl hc => exact absurd hc (by simp)
          | inr hc => exact hc
        refine ⟨?_, ?_, ?_, ?_, ?_⟩
        · intro o' ho'; rw [A₂ o' ho', A₁ o' ho']
        · rw [B₂, B₁]
        · refine ⟨List.replicate k c ++ ap, ?_, ?_⟩
          · rw [hap, hk, List.append_assoc]
          · intro e he
            cases List.mem_append.mp he with
            | inl h1 =>
              rw [List.eq_of_mem_replicate h1]
              exact List.mem_cons_self _ _
            | inr h2 => exact List.mem_cons_of_mem _ (hapmem e h2)
        · intro _
          by_cases hcs : cs = []
          · subst hcs
            rw [hnil₂ rfl]
            exact hcf hkpos
          · exact hcf₂ hcs
        · intro hcon; exact absurd hcon (by simp)
      · rw [if_neg hf] at h
        cases hcn : c.name with
        | none => rw [hcn] at h; exact absurd h (by simp)
        | some cn => rw [hcn] at h; exact absurd h (by simp)

/-- Success facts of `update_kustomize_charts` at the manifest level. -/
theorem update_charts_ok_facts {overlay : String} {charts : List Chart} {fs fs' : Fs}
    {m m' : Manifest} {tr : List Cmd}
    (h : update_kustomize_charts overlay charts fs m = (fs', .ok (m', tr))) :
    (∀ o', o' ≠ overlay → alookup m' o' = alookup m o') ∧
    images_field m' overlay = images_field m overlay ∧
    (∃ ap, charts_at m' overlay = charts_at m overlay ++ ap ∧ ∀ e ∈ ap, e ∈ charts) ∧
    (charts ≠ [] → ∃ l, charts_field m' overlay = some l ∧ l ≠ []) ∧
    (charts = [] → m' = m) := by
  unfold update_kustomize_charts at h
  by_cases hdir : overlay ∈ fs.dirs
  · rw [if_pos hdir] at h
    cases hread : fs.read overlay with
    | none =>
      simp only [hread] at h
      exact absurd (congrArg Prod.snd h) (by simp)
    | some k =>
      simp only [hread] at h
      cases hhc : k.helmCharts with
      | none =>
        simp only [hhc] at h
        exact absurd (congrArg Prod.snd h) (by simp)
      | some decls =>
        simp only [hhc] at h
        cases hloop : charts_loop overlay charts decls m with
        | error e =>
          simp only [hloop] at h
          exact absurd (congrArg Prod.snd h) (by simp)
        | ok p =>
          obtain ⟨decls₁, m₁⟩ := p
          simp only [hloop] at h
          have hsnd : Except.ok (m₁, [["kustomize", "cfg", "fmt", "kustomization.yaml"]]) =
              Except.ok (m', tr) := congrArg Prod.snd h
          obtain ⟨hm, htr⟩ := Prod.mk.injEq .. ▸ Except.ok.inj hsnd
          subst hm
          exact charts_loop_ok_facts charts decls m hloop
  · rw [if_neg hdir] at h
    exact absurd (congrArg Prod.snd h) (by simp)

/-- Claim C4: a chart change-set containing a chart name absent from the
overlay's declared `helmCharts` makes the whole overlay update fail with a
not-found error naming a missing chart, and the overlay's kustomization
file is not written (the returned filesystem is the input one). -/
theorem c4_absent_chart_aborts_without_write (overlay : String) (fs : Fs)
    (charts : List Chart) (m : Manifest) (k : Kustomization) (decls : List Chart)
    (hdir : overlay ∈ fs.dirs) (hread : fs.read overlay = some k)
    (hhc : k.helmCharts = some decls)
    (hcs : ∀ c ∈ charts, c.name ≠ none ∧ c.version ≠ none)
    (hds : ∀ d ∈ decls, d.name ≠ none)
    (hmiss : ∃ c ∈ charts, ∀ d ∈ decls, d.name ≠ c.name) :
    ∃ cn, (∃ c ∈ charts, c.name = some cn ∧ ∀ d ∈ decls, d.name ≠ some cn) ∧
      update_kustomize_charts overlay charts fs m =
        (fs, .error (.chartNotFound overlay cn)) := by
  obtain ⟨cn, hprop, hloop⟩ := @charts_loop_not_found overlay charts decls m hcs hds hmiss
  refine ⟨cn, hprop, ?_⟩
  unfold update_kustomize_charts
  rw [if_pos hdir]
  simp only [hread, hhc, hloop]

def c4_fs : Fs :=
  { dirs := ["bar"],
    kust := [("bar", { helmCharts := some [{ name := some "lighthouse", version := some "0.9.0" }] })] }

def c4_req : Chart := { name := some "absent", version := some "2.0.0", overlays := some ["bar"] }

/-- Witness for C4: requesting chart `absent` against an overlay declaring
only `lighthouse` fails with `chartNotFound` and leaves the filesystem
untouched. -/
theorem c4_absent_chart_aborts_without_write_witness :
    ∃ cn, (∃ c ∈ [c4_req], c.name = some cn ∧
        ∀ d ∈ [({ name := some "lighthouse", version := some "0.9.0" } : Chart)],
          d.name ≠ some cn) ∧
      update_kustomize_charts "bar" [c4_req] c4_fs [] =
        (c4_fs, .error (.chartNotFound "bar" cn)) :=
  c4_absent_chart_aborts_without_write "bar" c4_fs [c4_req] []
    { helmCharts := some [{ name := some "lighthouse", version := some "0.9.0" }] }
    [{ name := some "lighthouse", version := some "0.9.0" }]
    (by decide) rfl rfl (by decide) (by decide) (by decide)

def c5_decl : Chart :=
  { name := some "lighthouse", version := some "0.9.0", releaseName := some "old-release", extra := [("repo", "r")] }

def c5_decl' : Chart :=
  { name := some "lighthouse", version := some "1.0.0", releaseName := some "old-release", extra := [("repo", "r")] }

def c5_fs : Fs := { dirs := ["bar"], kust := [("bar", { helmCharts := some [c5_decl] })] }

def c5_req : Chart :=
  { name := some "lighthouse", version := some "1.0.0", releaseName := some "tillamook", overlays := some ["bar"] }

/-- Claim C5 evaluated at the failing input (code bug): the chart update
sets the matched declaration's `version` and preserves every other field —
including `releaseName`, which stays `old-release` even though the request
supplies `tillamook`, contradicting the script's own usage documentation
("Optionally, update the release name"). -/
theorem c5_release_name_never_applied :
    update_kustomize_charts "bar" [c5_req] c5_fs [] =
      ({ dirs := ["bar"], kust := [("bar", { helmCharts := some [c5_decl'] })] },
       .ok ([("bar", { charts := some [c5_req] })],
            [["kustomize", "cfg", "fmt", "kustomization.yaml"]])) ∧
    c5_decl'.version = c5_req.version ∧
    c5_decl'.releaseName = some "old-release" ∧
    c5_req.releaseName = some "tillamook" ∧
    c5_decl'.releaseName ≠ c5_req.releaseName ∧
    c5_decl'.name = c5_decl.name ∧
    c5_decl'.extra = c5_decl.extra :=
  ⟨rfl, rfl, rfl, rfl, by decide, rfl, rfl⟩

theorem gen_go_all_ok {o : String} :
    ∀ (imgs : List Image) (args : List String) (m : Manifest)
      (r : List String × Manifest), gen_go o imgs args m = .ok r →
      ∀ i ∈ imgs, gen_ok i = true := by
  intro imgs
  induction imgs with
  | nil => intro args m r h i hi; exact absurd hi (List.not_mem_nil i)
  | cons x rest ih =>
    intro args m r h i hi
    simp only [gen_go] at h
    cases hstep : gen_image_step o m x with
    | error e => rw [hstep] at h; exact absurd h (by simp)
    | ok p =>
      rw [hstep] at h
      obtain ⟨a₀, m₀⟩ := p
      cases List.mem_cons.mp hi with
      | inl heq => subst heq; exact gen_ok_of_step_ok hstep
      | inr hmem => exact ih (args ++ [a₀]) m₀ r h i hmem

/-- Claim C8 (amended): every image entry `generate_kustomize_args` adds to
the manifest has exactly the shape `{name, newName, newTag?}` (no
`fromOverlay` or `overlays` key); chart entries, by contrast, are the
resolved chart requests appended verbatim, so they keep whatever fields the
request carried. -/
theorem c8_manifest_entry_shapes :
    (∀ (o : String) (imgs : List Image) (m : Manifest) (args : List String)
      (m' : Manifest), generate_kustomize_args o imgs m = .ok (args, m') →
      ∀ e ∈ images_at m' o, e ∈ images_at m o ∨
        (e.name ≠ none ∧ e.newName ≠ none ∧ e.fromOverlay = none ∧ e.overlays = none)) ∧
    (∀ (overlay : String) (charts : List Chart) (fs fs' : Fs) (m m' : Manifest)
      (tr : List Cmd), update_kustomize_charts overlay charts fs m = (fs', .ok (m', tr)) →
      ∀ e ∈ charts_at m' overlay, e ∈ charts_at m overlay ∨ e ∈ charts) := by
  constructor
  · intro o imgs m args m' hg e he
    obtain ⟨_, B, _⟩ := gen_go_ok imgs [] m args m' hg
    rw [B] at he
    cases List.mem_append.mp he with
    | inl h1 => exact Or.inl h1
    | inr h2 =>
      obtain ⟨i, hi, rfl⟩ := List.mem_map.mp h2
      have hok : gen_ok i = true := gen_go_all_ok imgs [] m (args, m') hg i hi
      have hname : i.name ≠ none := by
        unfold gen_ok at hok
        cases hn : i.name with
        | none => rw [hn] at hok; exact absurd hok (by simp)
        | some n => simp [hn]
      obtain ⟨h1, h2, h3, h4⟩ := entry_of_shape hname
      exact Or.inr ⟨by rw [h1]; exact hname, h2, h3, h4⟩
  · intro overlay charts fs fs' m m' tr hu e he
    obtain ⟨_, _, ⟨ap, hap, hapmem⟩, _, _⟩ := update_charts_ok_facts hu
    rw [hap] at he
    cases List.mem_append.mp he with
    | inl h1 => exact Or.inl h1
    | inr h2 => exact Or.inr (hapmem e h2)

/-- The manifest a concrete image-generation run produces. -/
def c8_m : Manifest :=
  [("prod", { images := some [{ name := some "app", newName := some "app", newTag := some "v3" }], charts := none })]

/-- Witness for C8: an image generation run and a chart update run on
concrete inputs. -/
theorem c8_manifest_entry_shapes_witness :
    (∀ e ∈ images_at c8_m "prod",
      e ∈ images_at [] "prod" ∨
        (e.name ≠ none ∧ e.newName ≠ none ∧ e.fromOverlay = none ∧ e.overlays = none)) ∧
    (∀ e ∈ charts_at [("bar", { charts := some [c5_req] })] "bar",
      e ∈ charts_at [] "bar" ∨ e ∈ [c5_req]) := by
  constructor
  · exact c8_manifest_entry_shapes.1 "prod"
      [{ name := some "app", newTag := some "v3", overlays := some ["prod"] }] []
      ["app=app:v3"] _ rfl
  · exact c8_manifest_entry_shapes.2 "bar" [c5_req] c5_fs
      { dirs := ["bar"], kust := [("bar", { helmCharts := some [c5_decl'] })] } [] _
      [["kustomize", "cfg", "fmt", "kustomization.yaml"]] rfl

/-- Counterexample to C8 as stated: the chart entry recorded in the final
promotion manifest for a literal chart request retains the request's
`overlays` field, so it does not have the shape `{name, version,
releaseName?}`. -/
theorem c8_counterexample :
    update_kustomize_charts "bar" [c5_req] c5_fs [] =
      ({ dirs := ["bar"], kust := [("bar", { helmCharts := some [c5_decl'] })] },
       .ok ([("bar", { charts := some [c5_req] })],
            [["kustomize", "cfg", "fmt", "kustomization.yaml"]])) ∧
    charts_at [("bar", { charts := some [c5_req] })] "bar" = [c5_req] ∧
    c5_req.overlays = some ["bar"] ∧
    c5_req.overlays ≠ none :=
  ⟨rfl, rfl, rfl, by decide⟩

/-! ### Claim C3: collecting validation errors -/

theorem mem_validate_image_fields {b : Bool} {img : Image} {v : Violation} :
    ∀ {l : List Image}, img ∈ l → v ∈ Validate.image_field_violations b img →
      v ∈ Validate.validate_image_fields b l := by
  intro l
  induction l with
  | nil => intro h _; exact absurd h (List.not_mem_nil _)
  | cons x rest ih =>
    intro hmem hv
    simp only [Validate.validate_image_fields, List.mem_append]
    cases List.mem_cons.mp hmem with
    | inl heq => exact Or.inl (heq ▸ hv)
    | inr hm => exact Or.inr (ih hm hv)

/-- Claim C3 (amended): the `validate.py` module's `validate_images`
collects and reports every violation together in one pass — its result is
`True` exactly when the collected list is empty, the list contains every
per-image field violation of every image and both duplicate reports — and
in `main` a validation exit happens before any resolution or mutation (the
filesystem is returned untouched with no command run). The `promote.py`
script's own `validate_images`, used by the main flow, instead stops at the
first violation category (see the counterexample). -/
theorem c3_all_violations_collected (b : Bool) (images : List Image) :
    ((Validate.validate_images b images).1 = true ↔
      (Validate.validate_images b images).2 = []) ∧
    (∀ img ∈ images, ∀ v ∈ Validate.image_field_violations b img,
      v ∈ (Validate.validate_images b images).2) ∧
    (find_duplicates (images.filterMap (·.name)) ≠ [] →
      Violation.dupNames (find_duplicates (images.filterMap (·.name))) ∈
        (Validate.validate_images b images).2) ∧
    (find_duplicates (images.filterMap (·.newName)) ≠ [] →
      Violation.dupNewNames (find_duplicates (images.filterMap (·.newName))) ∈
        (Validate.validate_images b images).2) ∧
    (∀ (imgsL : List Image) (chartsL : List Chart) (fs : Fs) (e : PErr),
      validate_promotion_lists imgsL chartsL = .error e →
      main_run imgsL chartsL fs = (fs, [], .error e)) := by
  refine ⟨?_, ?_, ?_, ?_, ?_⟩
  · simp [Validate.validate_images, List.isEmpty_iff]
  · intro img hmem v hv
    simp only [Validate.validate_images]
    refine List.mem_append.mpr (Or.inr ?_)
    rw [if_pos (List.ne_nil_of_mem hmem)]
    exact mem_validate_image_fields hmem hv
  · intro hd
    simp only [Validate.validate_images]
    refine List.mem_append.mpr (Or.inl (List.mem_append.mpr (Or.inl ?_)))
    rw [if_pos hd]
    exact List.mem_singleton.mpr rfl
  · intro hd
    simp only [Validate.validate_images]
    refine List.mem_append.mpr (Or.inl (List.mem_append.mpr (Or.inr ?_)))
    rw [if_pos hd]
    exact List.mem_singleton.mpr rfl
  · intro imgsL chartsL fs e hv
    simp [main_run, hv]

def c3_imgs : List Image :=
  [{ name := some "a", newName := some "x", overlays := some ["o"] },
   { name := some "a", overlays := some ["o"] },
   { newTag := some "t", overlays := some ["o"] }]

/-- Witness for C3: on a change-set with a duplicate name, a missing-field
violation and a missing-name violation, the `validate.py` validator reports
all of them; and an empty promotion input exits before any mutation. -/
theorem c3_all_violations_collected_witness :
    Violation.missingName { newTag := some "t", overlays := some ["o"] } ∈
      (Validate.validate_images false c3_imgs).2 ∧
    Violation.dupNames ["a"] ∈ (Validate.validate_images false c3_imgs).2 ∧
    main_run [] [] { dirs := [], kust := [] } =
      ({ dirs := [], kust := [] }, [], .error .usage) := by
  refine ⟨?_, ?_, ?_⟩
  · exact (c3_all_violations_collected false c3_imgs).2.1
      { newTag := some "t", overlays := some ["o"] } (by decide) _ (by decide)
  · exact (c3_all_violations_collected false c3_imgs).2.2.1 (by decide)
  · exact (c3_all_violations_collected false c3_imgs).2.2.2.2 [] [] _ .usage rfl

/-- Counterexample to C3 as stated: `promote.py`'s `validate_images` (the
validator the main flow runs) exits on the duplicate-name violation alone,
reporting neither the third image's missing `name` nor any other
violation. -/
theorem c3_counterexample :
    validate_images false c3_imgs = .exited [.dupNames ["a"]] ∧
    Violation.missingName { newTag := some "t", overlays := some ["o"] } ∈
      Validate.validate_image_fields false c3_imgs ∧
    Violation.missingName { newTag := some "t", overlays := some ["o"] } ∉
      [Violation.dupNames ["a"]] := by
  decide

/-! ### Association-list keys, uniqueness of bucket keys -/

def akeys {α : Type} (m : List (String × α)) : List String := m.map (·.1)

theorem alookup_isSome_of_mem {α : Type} {m : List (String × α)} {k : String} {v : α}
    (h : (k, v) ∈ m) : (alookup m k).isSome := by
  induction m with
  | nil => exact absurd h (List.not_mem_nil _)
  | cons kv rest ih =>
    obtain ⟨k', v'⟩ := kv
    simp only [alookup]
    by_cases hk : k' = k
    · simp [hk]
    · simp only [if_neg hk]
      cases List.mem_cons.mp h with
      | inl heq => exact absurd (congrArg Prod.fst heq).symm hk
      | inr hm => exact ih hm

theorem alookup_eq_none_iff {α : Type} (m : List (String × α)) (k : String) :
    alookup m k = none ↔ k ∉ akeys m := by
  induction m with
  | nil => simp [alookup, akeys]
  | cons kv rest ih =>
    obtain ⟨k', v'⟩ := kv
    simp only [alookup, akeys, List.map, List.mem_cons]
    by_cases hk : k' = k
    · simp [hk]
    · simp only [if_neg hk]
      rw [ih]
      simp only [akeys]
      constructor
      · intro h1 h2
        cases h2 with
        | inl he => exact hk he.symm
        | inr hm => exact h1 hm
      · intro h1 h2
        exact h1 (Or.inr h2)

theorem alookup_of_mem_nodup {α : Type} {m : List (String × α)} {k : String} {v : α}
    (hnd : (akeys m).Nodup) (h : (k, v) ∈ m) : alookup m k = some v := by
  induction m with
  | nil => exact absurd h (List.not_mem_nil _)
  | cons kv rest ih =>
    obtain ⟨k', v'⟩ := kv
    have hnd' : k' ∉ akeys rest ∧ (akeys rest).Nodup := by
      have := hnd
      simp only [akeys, List.map, List.nodup_cons] at this
      exact this
    cases List.mem_cons.mp h with
    | inl heq =>
      have hk : k = k' := congrArg Prod.fst heq
      have hv : v = v' := congrArg Prod.snd heq
      simp [alookup, hk.symm, hv]
    | inr hm =>
      have hkmem : k ∈ akeys rest := List.mem_map.mpr ⟨(k, v), hm, rfl⟩
      have hne : ¬(k' = k) := fun he => hnd'.1 (he ▸ hkmem)
      simp only [alookup, if_neg hne]
      exact ih hnd'.2 hm

theorem akeys_bucket_append_of_isSome {α : Type} {m : List (String × List α)} {k : String}
    (v : α) (h : (alookup m k).isSome) : akeys (bucket_append m k v) = akeys m := by
  induction m with
  | nil => simp [alookup] at h
  | cons kv rest ih =>
    obtain ⟨k', vs⟩ := kv
    simp only [bucket_append]
    by_cases hk : k' = k
    · rw [if_pos hk]
      simp [akeys]
    · rw [if_neg hk]
      simp only [akeys, List.map, List.cons.injEq, true_and]
      simp only [alookup, if_neg hk] at h
      exact ih h

theorem nodup_akeys_bucket_ensure {α : Type} {m : List (String × List α)} (k : String)
    (hnd : (akeys m).Nodup) : (akeys (bucket_ensure m k)).Nodup := by
  unfold bucket_ensure
  by_cases hk : (alookup m k).isSome
  · rw [if_pos hk]; exact hnd
  · rw [if_neg hk]
    have hknot : k ∉ akeys m := by
      rw [← alookup_eq_none_iff]
      exact Option.not_isSome_iff_eq_none.mp hk
    have hkeys : akeys (m ++ [(k, ([] : List α))]) = akeys m ++ [k] := by simp [akeys]
    rw [hkeys]
    exact List.Nodup.append hnd (List.nodup_singleton k)
      (fun a ha hb => hknot ((List.mem_singleton.mp hb) ▸ ha))

theorem isSome_alookup_bucket_ensure {α : Type} (m : List (String × List α)) (k : String) :
    (alookup (bucket_ensure m k) k).isSome := by
  rw [alookup_bucket_ensure_self]
  rfl

theorem isSome_alookup_bucket_append {α : Type} (m : List (String × List α)) (k : String)
    (v : α) : (alookup (bucket_append m k v) k).isSome := by
  rw [alookup_bucket_append_self]
  rfl

theorem gcfo_match_nodup {o : String} {chart : Chart} :
    ∀ (decls : List Chart) (acc acc' : List (String × List Chart)),
      (akeys acc).Nodup → (alookup acc o).isSome →
      gcfo_match o chart decls acc = .ok acc' →
      (akeys acc').Nodup ∧ (alookup acc' o).isSome := by
  intro decls
  induction decls with
  | nil =>
    intro acc acc' hnd hs h
    simp only [gcfo_match] at h
    obtain rfl := Except.ok.inj h
    exact ⟨hnd, hs⟩
  | cons c cs ih =>
    intro acc acc' hnd hs h
    simp only [gcfo_match] at h
    cases hcn : chart.name with
    | none => rw [hcn] at h; exact absurd h (by simp)
    | some n =>
      rw [hcn] at h
      simp only at h
      by_cases hceq : c.name = some n
      · rw [if_pos hceq] at h
        exact ih (bucket_append acc o c) acc'
          (by rw [akeys_bucket_append_of_isSome c hs]; exact hnd)
          (isSome_alookup_bucket_append acc o c) h
      · rw [if_neg hceq] at h
        exact ih acc acc' hnd hs h

theorem gcfo_overlays_nodup {fs : Fs} {chart : Chart} :
    ∀ (os : List String) (acc acc' : List (String × List Chart)),
      (akeys acc).Nodup → gcfo_overlays fs chart os acc = .ok acc' →
      (akeys acc').Nodup := by
  intro os
  induction os with
  | nil =>
    intro acc acc' hnd h
    simp only [gcfo_overlays] at h
    obtain rfl := Except.ok.inj h
    exact hnd
  | cons o rest ih =>
    intro acc acc' hnd h
    simp only [gcfo_overlays] at h
    cases hfo : chart.fromOverlay with
    | some src =>
      simp only [hfo] at h
      cases hread : read_charts_from_overlay src fs with
      | error e => simp only [hread] at h; exact absurd h (by simp)
      | ok st =>
        simp only [hread] at h
        cases hm : gcfo_match o chart (st.map (·.2)) (bucket_ensure acc o) with
        | error e => simp only [hm] at h; exact absurd h (by simp)
        | ok acc₂ =>
          simp only [hm] at h
          obtain ⟨hnd₂, _⟩ := gcfo_match_nodup (st.map (·.2)) (bucket_ensure acc o) acc₂
            (nodup_akeys_bucket_ensure o hnd) (isSome_alookup_bucket_ensure acc o) hm
          exact ih acc₂ acc' hnd₂ h
    | none =>
      simp only [hfo] at h
      refine ih _ acc' ?_ h
      have h₁ := nodup_akeys_bucket_ensure o hnd
      rw [← akeys_bucket_append_of_isSome chart (isSome_alookup_bucket_ensure acc o)] at h₁
      exact h₁

theorem gcfo_go_nodup {fs : Fs} :
    ∀ (charts : List Chart) (acc bs : List (String × List Chart)),
      (akeys acc).Nodup → gcfo_go fs charts acc = .ok bs → (akeys bs).Nodup := by
  intro charts
  induction charts with
  | nil =>
    intro acc bs hnd h
    simp only [gcfo_go] at h
    obtain rfl := Except.ok.inj h
    exact hnd
  | cons c cs ih =>
    intro acc bs hnd h
    simp only [gcfo_go] at h
    cases hov : c.overlays with
    | none => simp only [hov] at h; exact absurd h (by simp)
    | some os =>
      simp only [hov] at h
      cases hgo : gcfo_overlays fs c os acc with
      | error e => simp only [hgo] at h; exact absurd h (by simp)
      | ok acc₁ =>
        simp only [hgo] at h
        exact ih acc₁ bs (gcfo_overlays_nodup os acc acc₁ hnd hgo) h

/-! ### The two mutation phases of `main` -/

theorem update_images_ok_facts {env : String} {fs : Fs} {imgs : List Image}
    {m m' : Manifest} {cmds : List Cmd}
    (h : update_kustomize_images env fs imgs m = .ok (m', cmds)) :
    (∀ o', o' ≠ env → alookup m' o' = alookup m o') ∧
    charts_field m' env = charts_field m env ∧
    (imgs = [] → m' = m) ∧
    (imgs ≠ [] → ∃ om, alookup m' env = some om ∧
      om.images = some (images_at m env ++ imgs.map entry_of)) := by
  unfold update_kustomize_images at h
  by_cases hdir : env ∈ fs.dirs
  · rw [if_pos hdir] at h
    cases hg : generate_kustomize_args env imgs m with
    | error e => simp only [hg] at h; exact absurd h (by simp)
    | ok p =>
      obtain ⟨args, m₁⟩ := p
      simp only [hg] at h
      have hm : m₁ = m' := by
        by_cases ha : args.isEmpty
        · rw [if_pos ha] at h
          exact (Prod.mk.injEq .. ▸ Except.ok.inj h).1
        · rw [if_neg ha] at h
          exact (Prod.mk.injEq .. ▸ Except.ok.inj h).1
      subst hm
      obtain ⟨_, _, C, D, E, F⟩ := gen_go_ok imgs [] m args m₁ hg
      exact ⟨C, D, E, F⟩
  · rw [if_neg hdir] at h
    exact absurd h (by simp)

/-- Facts of the image mutation loop of `main` on success: manifest keys
and `images` keys originate only from non-empty buckets, `charts` keys are
never touched, and no recorded images list is empty. -/
theorem images_phase_ok_facts {fs : Fs} :
    ∀ (buckets : List (String × List Image)) (m : Manifest) (tr tr' : List Cmd)
      {m' : Manifest}, images_phase fs buckets m tr = (tr', .ok m') →
      (∀ o, (alookup m' o).isSome →
        (alookup m o).isSome ∨ ∃ l, (o, l) ∈ buckets ∧ l ≠ []) ∧
      (∀ o, images_field m' o ≠ none →
        images_field m o ≠ none ∨ ∃ l, (o, l) ∈ buckets ∧ l ≠ []) ∧
      (∀ o, charts_field m' o = charts_field m o) ∧
      ((∀ o om, alookup m o = some om → om.images ≠ some []) →
        ∀ o om, alookup m' o = some om → om.images ≠ some []) := by
  intro buckets
  induction buckets with
  | nil =>
    intro m tr tr' m' h
    simp only [images_phase] at h
    obtain ⟨htr, hm⟩ := Prod.mk.injEq .. ▸ h
    obtain rfl := Except.ok.inj hm
    exact ⟨fun o hs => Or.inl hs, fun o hs => Or.inl hs, fun o => rfl, fun hp => hp⟩
  | cons b rest ih =>
    obtain ⟨env, imgs⟩ := b
    intro m tr tr' m' h
    simp only [images_phase] at h
    cases hstep : update_kustomize_images env fs imgs m with
    | error e =>
      simp only [hstep] at h
      exact absurd (congrArg Prod.snd h) (by simp)
    | ok p =>
      obtain ⟨m₁, cmds⟩ := p
      simp only [hstep] at h
      cases hlk : alookup m₁ env with
      | none =>
        simp only [hlk] at h
        exact absurd (congrArg Prod.snd h) (by simp)
      | some om₀ =>
        simp only [hlk] at h
        cases homi : om₀.images with
        | none =>
          simp only [homi] at h
          exact absurd (congrArg Prod.snd h) (by simp)
        | some l₀ =>
          simp only [homi] at h
          obtain ⟨K, I, C, P⟩ := ih m₁ (tr ++ cmds) tr' h
          obtain ⟨sA, sC, sE, sF⟩ := update_images_ok_facts hstep
          refine ⟨?_, ?_, ?_, ?_⟩
          · intro o hs
            cases K o hs with
            | inr hb => exact Or.inr (hb.imp fun l hl => ⟨List.mem_cons_of_mem _ hl.1, hl.2⟩)
            | inl h1 =>
              by_cases ho : o = env
              · subst ho
                by_cases hi : imgs = []
                · rw [sE hi] at h1
                  exact Or.inl h1
                · exact Or.inr ⟨imgs, List.mem_cons_self _ _, hi⟩
              · rw [sA o ho] at h1
                exact Or.inl h1
          · intro o hs
            cases I o hs with
            | inr hb => exact Or.inr (hb.imp fun l hl => ⟨List.mem_cons_of_mem _ hl.1, hl.2⟩)
            | inl h1 =>
              by_cases ho : o = env
              · subst ho
                by_cases hi : imgs = []
                · rw [sE hi] at h1
                  exact Or.inl h1
                · exact Or.inr ⟨imgs, List.mem_cons_self _ _, hi⟩
              · rw [show images_field m₁ o = images_field m o from by
                  unfold images_field; rw [sA o ho]] at h1
                exact Or.inl h1
          · intro o
            rw [C o]
            by_cases ho : o = env
            · subst ho
              exact sC
            · unfold charts_field
              rw [sA o ho]
          · intro hp
            refine P ?_
            intro o om hlo
            by_cases ho : o = env
            · subst ho
              by_cases hi : imgs = []
              · rw [sE hi] at hlo
                exact hp o om hlo
              · obtain ⟨om', hom', himgs⟩ := sF hi
                rw [hlo] at hom'
                obtain rfl := Option.some.inj hom'
                rw [himgs]
                intro hcon
                have := Option.some.inj hcon
                rw [List.append_eq_nil] at this
                rw [List.map_eq_nil_iff] at this
                exact hi this.2
            · rw [sA o ho] at hlo
              exact hp o om hlo

/-- Facts of the chart mutation loop of `main` on success: manifest keys
and `charts` keys originate only from non-empty buckets, `images` fields
are untouched, and no recorded charts list is empty. -/
theorem charts_phase_ok_facts :
    ∀ (buckets : List (String × List Chart)) (fs : Fs) (m : Manifest) (tr : List Cmd)
      {fs' : Fs} {tr' : List Cmd} {m' : Manifest},
      charts_phase buckets fs m tr = (fs', tr', .ok m') →
      (∀ o, (alookup m' o).isSome →
        (alookup m o).isSome ∨ ∃ l, (o, l) ∈ buckets ∧ l ≠ []) ∧
      (∀ o, charts_field m' o ≠ none →
        charts_field m o ≠ none ∨ ∃ l, (o, l) ∈ buckets ∧ l ≠ []) ∧
      (∀ o, images_field m' o = images_field m o) ∧
      ((∀ o om, alookup m o = some om → om.charts ≠ some []) →
        ∀ o om, alookup m' o = some om → om.charts ≠ some []) := by
  intro buckets
  induction buckets with
  | nil =>
    intro fs m tr fs' tr' m' h
    simp only [charts_phase] at h
    obtain ⟨hfs, hrest⟩ := Prod.mk.injEq .. ▸ h
    obtain ⟨htr, hm⟩ := Prod.mk.injEq .. ▸ hrest
    obtain rfl := Except.ok.inj hm
    exact ⟨fun o hs => Or.inl hs, fun o hs => Or.inl hs, fun o => rfl, fun hp => hp⟩
  | cons b rest ih =>
    obtain ⟨env, cs⟩ := b
    intro fs m tr fs' tr' m' h
    simp only [charts_phase] at h
    cases hstep : update_kustomize_charts env cs fs m with
    | mk fs₁ r₁ =>
      cases r₁ with
      | error e =>
        simp only [hstep] at h
        exact absurd (congrArg (fun x => x.2.2) h) (by simp)
      | ok p =>
        obtain ⟨m₁, cmds⟩ := p
        simp only [hstep] at h
        cases hlk : alookup m₁ env with
        | none =>
          simp only [hlk] at h
          exact absurd (congrArg (fun x => x.2.2) h) (by simp)
        | some om₀ =>
          simp only [hlk] at h
          cases homc : om₀.charts with
          | none =>
            simp only [homc] at h
            exact absurd (congrArg (fun x => x.2.2) h) (by simp)
          | some l₀ =>
            simp only [homc] at h
            obtain ⟨K, Cq, I, P⟩ := ih fs₁ m₁ (tr ++ cmds) h
            obtain ⟨sA, sB, ⟨ap, hap, hapm⟩, sCF, sE⟩ := update_charts_ok_facts hstep
            refine ⟨?_, ?_, ?_, ?_⟩
            · intro o hs
              cases K o hs with
              | inr hb => exact Or.inr (hb.imp fun l hl => ⟨List.mem_cons_of_mem _ hl.1, hl.2⟩)
              | inl h1 =>
                by_cases ho : o = env
                · subst ho
                  by_cases hc : cs = []
                  · rw [sE hc] at h1
                    exact Or.inl h1
                  · exact Or.inr ⟨cs, List.mem_cons_self _ _, hc⟩
                · rw [sA o ho] at h1
                  exact Or.inl h1
            · intro o hs
              cases Cq o hs with
              | inr hb => exact Or.inr (hb.imp fun l hl => ⟨List.mem_cons_of_mem _ hl.1, hl.2⟩)
              | inl h1 =>
                by_cases ho : o = env
                · subst ho
                  by_cases hc : cs = []
                  · rw [sE hc] at h1
                    exact Or.inl h1
                  · exact Or.inr ⟨cs, List.mem_cons_self _ _, hc⟩
                · rw [show charts_field m₁ o = charts_field m o from by
                    unfold charts_field; rw [sA o ho]] at h1
                  exact Or.inl h1
            · intro o
              rw [I o]
              by_cases ho : o = env
              · subst ho
                exact sB
              · unfold images_field
                rw [sA o ho]
            · intro hp
              refine P ?_
              intro o om hlo
              by_cases ho : o = env
              · subst ho
                by_cases hc : cs = []
                · rw [sE hc] at hlo
                  exact hp o om hlo
                · obtain ⟨l, hl, hlne⟩ := sCF hc
                  have homeq : om.charts = some l := by
                    unfold charts_field at hl
                    rw [hlo] at hl
                    exact hl
                  rw [homeq]
                  intro hcon
                  exact hlne (Option.some.inj hcon)
              · rw [sA o ho] at hlo
                exact hp o om hlo

theorem images_field_some_inv {m : Manifest} {o : String} {l : List Image}
    (h : images_field m o = some l) : ∃ om, alookup m o = some om ∧ om.images = some l := by
  unfold images_field at h
  cases hlk : alookup m o with
  | none => rw [hlk] at h; exact absurd h (by simp [om_empty])
  | some om =>
    rw [hlk] at h
    exact ⟨om, rfl, by simpa using h⟩

theorem images_field_of_lookup {m : Manifest} {o : String} {om : OverlayManifest}
    (h : alookup m o = some om) : images_field m o = om.images := by
  unfold images_field
  rw [h]
  rfl

theorem charts_field_of_lookup {m : Manifest} {o : String} {om : OverlayManifest}
    (h : alookup m o = some om) : charts_field m o = om.charts := by
  unfold charts_field
  rw [h]
  rfl

/-- Claim C9: in a successfully completed run, a manifest overlay entry's
`images`/`charts` list is never empty and exists only when that overlay's
resolved bucket in the corresponding category is non-empty; an overlay with
no (or only empty) buckets in both categories is not a manifest key at
all. -/
theorem c9_minimal_manifest (imgs : List Image) (charts : List Chart) (fs fs' : Fs)
    (tr : List Cmd) (m : Manifest) (ib : List (String × List Image))
    (cb : List (String × List Chart))
    (hmain : main_run imgs charts fs = (fs', tr, .ok m))
    (hib : get_images_from_overlays imgs fs = .ok ib)
    (hcb : get_charts_from_overlays charts fs = .ok cb) :
    (∀ o om, alookup m o = some om →
      (∀ l, om.images = some l → l ≠ []) ∧
      (∀ l, om.charts = some l → l ≠ []) ∧
      (om.images ≠ none → ∃ bl, alookup ib o = some bl ∧ bl ≠ []) ∧
      (om.charts ≠ none → ∃ bl, alookup cb o = some bl ∧ bl ≠ [])) ∧
    (∀ o, (∀ bl, alookup ib o = some bl → bl = []) →
      (∀ bl, alookup cb o = some bl → bl = []) → alookup m o = none) := by
  unfold main_run at hmain
  cases hval : validate_promotion_lists imgs charts with
  | error e =>
    simp only [hval] at hmain
    exact absurd (congrArg (fun x => x.2.2) hmain) (by simp)
  | ok u =>
    simp only [hval] at hmain
    simp only [hib, hcb] at hmain
    cases hph : images_phase fs ib [] [] with
    | mk tr₁ r₁ =>
      cases r₁ with
      | error e =>
        simp only [hph] at hmain
        exact absurd (congrArg (fun x => x.2.2) hmain) (by simp)
      | ok m₁ =>
        simp only [hph] at hmain
        obtain ⟨iK, iI, iC, iP⟩ := images_phase_ok_facts ib [] [] tr₁ hph
        obtain ⟨cK, cC, cI, cP⟩ := charts_phase_ok_facts cb fs m₁ tr₁ hmain
        have hibchar := (gifo_go_ok imgs [] ib hib).2
        have hcbnodup : (akeys cb).Nodup := gcfo_go_nodup charts [] cb (by simp [akeys]) hcb
        have hib_mem : ∀ {o : String} {l : List Image}, (o, l) ∈ ib → l ≠ [] →
            ∃ bl, alookup ib o = some bl ∧ bl ≠ [] := by
          intro o l hmem hne
          have hs : (alookup ib o).isSome := alookup_isSome_of_mem hmem
          have := hibchar o
          by_cases ht : targets o imgs = true
          · rw [if_pos ht] at this
            refine ⟨_, this, ?_⟩
            simp only [alookup, Option.getD_none, List.nil_append]
            intro hcon
            exact resolved_seq_ne_nil_of_targets ht hcon
          · rw [if_neg ht] at this
            rw [this] at hs
            simp [alookup] at hs
        have hcb_mem : ∀ {o : String} {l : List Chart}, (o, l) ∈ cb → l ≠ [] →
            ∃ bl, alookup cb o = some bl ∧ bl ≠ [] := by
          intro o l hmem hne
          exact ⟨l, alookup_of_mem_nodup hcbnodup hmem, hne⟩
        have hP1 : ∀ o om, alookup m₁ o = some om → om.images ≠ some [] := by
          refine iP ?_
          intro o om hlo
          exact absurd hlo (by simp [alookup])
        have hC1 : ∀ o om, alookup m₁ o = some om → om.charts ≠ some [] := by
          intro o om hlo
          have h1 : om.charts = charts_field m₁ o := (charts_field_of_lookup hlo).symm
          rw [h1, iC o]
          intro hcon
          exact absurd hcon (by simp [charts_field, alookup, om_empty])
        have hPm : ∀ o om, alookup m o = some om → om.charts ≠ some [] := cP hC1
        constructor
        · intro o om hmo
          refine ⟨?_, ?_, ?_, ?_⟩
          · intro l himl hlnil
            subst hlnil
            have h1 : images_field m o = some [] := by
              rw [images_field_of_lookup hmo, himl]
            rw [cI o] at h1
            obtain ⟨om₁, hom₁, homi₁⟩ := images_field_some_inv h1
            exact hP1 o om₁ hom₁ homi₁
          · intro l himc hlnil
            subst hlnil
            exact hPm o om hmo himc
          · intro hin
            have h1 : images_field m o ≠ none := by
              rw [images_field_of_lookup hmo]
              exact hin
            rw [cI o] at h1
            cases iI o h1 with
            | inl h2 => exact absurd rfl h2
            | inr h2 =>
              obtain ⟨l, hmem, hne⟩ := h2
              exact hib_mem hmem hne
          · intro hcn
            have h1 : charts_field m o ≠ none := by
              rw [charts_field_of_lookup hmo]
              exact hcn
            cases cC o h1 with
            | inl h2 =>
              rw [iC o] at h2
              exact absurd rfl h2
            | inr h2 =>
              obtain ⟨l, hmem, hne⟩ := h2
              exact hcb_mem hmem hne
        · intro o hibempty hcbempty
          cases hmo : alookup m o with
          | none => rfl
          | some om =>
            have hs : (alookup m o).isSome := by rw [hmo]; rfl
            cases cK o hs with
            | inr h2 =>
              obtain ⟨l, hmem, hne⟩ := h2
              obtain ⟨bl, hbl, hblne⟩ := hcb_mem hmem hne
              exact absurd (hcbempty bl hbl) hblne
            | inl h2 =>
              cases iK o h2 with
              | inl h3 => simp [alookup] at h3
              | inr h3 =>
                obtain ⟨l, hmem, hne⟩ := h3
                obtain ⟨bl, hbl, hblne⟩ := hib_mem hmem hne
                exact absurd (hibempty bl hbl) hblne

def c9_fs : Fs :=
  { dirs := ["prod", "bar"],
    kust := [("bar", { helmCharts := some [{ name := some "lighthouse", version := some "0.9.0" }] })] }

def c9_fs' : Fs :=
  { dirs := ["prod", "bar"],
    kust := [("bar", { helmCharts := some [{ name := some "lighthouse", version := some "1.0.0" }] })] }

def c9_img : Image := { name := some "app", newTag := some "v3", overlays := some ["prod"] }

def c9_chart : Chart := { name := some "lighthouse", version := some "1.0.0", overlays := some ["bar"] }

/-- The final manifest of the concrete C9 run. -/
def c9_m : Manifest :=
  [("prod", { images := some [{ name := some "app", newName := some "app", newTag := some "v3" }], charts := none }),
   ("bar", { images := none, charts := some [c9_chart] })]

def c9_ib : List (String × List Image) := [("prod", [c9_img])]

def c9_cb : List (String × List Chart) := [("bar", [c9_chart])]

/-- Witness for C9 on a concrete successful run touching one image overlay
and one chart overlay. -/
theorem c9_minimal_manifest_witness :
    (∀ o om, alookup c9_m o = some om →
      (∀ l, om.images = some l → l ≠ []) ∧
      (∀ l, om.charts = some l → l ≠ []) ∧
      (om.images ≠ none → ∃ bl, alookup c9_ib o = some bl ∧ bl ≠ []) ∧
      (om.charts ≠ none → ∃ bl, alookup c9_cb o = some bl ∧ bl ≠ [])) ∧
    (∀ o, (∀ bl, alookup c9_ib o = some bl → bl = []) →
      (∀ bl, alookup c9_cb o = some bl → bl = []) → alookup c9_m o = none) :=
  c9_minimal_manifest [c9_img] [c9_chart] c9_fs c9_fs'
    [["kustomize", "edit", "set", "image", "app=app:v3"],
     ["kustomize", "cfg", "fmt", "kustomization.yaml"]]
    c9_m c9_ib c9_cb rfl rfl rfl

end Spec2Proof
